import Mathlib

/-!
Verification development for the photodaterescue web application
(`src/app.py`).  The timestamp-recovery pipeline of the source is shallowly
embedded below: pure Python functions become Lean functions, the per-file
processing loop becomes explicit state passing, and uncaught Python
exceptions become `Except.error`.

Modelling conventions, used throughout:

* Python strings and raw file bytes are modelled as Lean `String`
  (decoded, ASCII-oriented; `str.lower` is `String.toLower`).
* Python `None`-able values are `Option`.
* `datetime.datetime` objects are modelled by the record `PyDateTime`
  below.  The two timezone-dependent CPython conversions
  `datetime(...).timestamp()` (naive local time -> epoch seconds) and
  `datetime.fromtimestamp(...)` (epoch seconds -> local time) are kept
  abstract: every definition that needs them takes them as explicit
  function arguments (`dtToTs : PyDateTime → Int`,
  `fromTs : Int → Option PyDateTime`).  `fromTs` returns `Option`
  because `datetime.fromtimestamp` raises for out-of-range inputs;
  that uncaught exception is propagated as `Except.error`.
* Filesystem side effects of the pipeline (the output tree) are modelled
  as an association list from output-relative path to file bytes, where
  `shutil.copy2` overwrites in place, exactly as on a real filesystem.
-/

/-- Model of a `datetime.datetime` value (naive, no timezone). -/
structure PyDateTime where
  year : Nat
  month : Nat
  day : Nat
  hour : Nat
  minute : Nat
  second : Nat
deriving DecidableEq, Repr

/-- Gregorian leap-year rule, as implemented by `datetime`. -/
def isLeapYear (y : Nat) : Bool :=
  y % 4 = 0 && (y % 100 ≠ 0 || y % 400 = 0)

/-- Number of days of month `m` in year `y` (as validated by `datetime`). -/
def daysInMonth (y m : Nat) : Nat :=
  if m = 2 then (if isLeapYear y then 29 else 28)
  else if m = 4 ∨ m = 6 ∨ m = 9 ∨ m = 11 then 30
  else 31

/-- The `datetime.datetime` constructor: returns `some` when the components
are in range (`MINYEAR = 1`, `MAXYEAR = 9999`, real calendar day, valid
time of day) and `none` when CPython would raise `ValueError`. -/
def mkPyDateTime (y mo d h mi s : Nat) : Option PyDateTime :=
  if 1 ≤ y ∧ y ≤ 9999 ∧ 1 ≤ mo ∧ mo ≤ 12 ∧ 1 ≤ d ∧ d ≤ daysInMonth y mo
      ∧ h ≤ 23 ∧ mi ≤ 59 ∧ s ≤ 59 then
    some ⟨y, mo, d, h, mi, s⟩
  else
    none

/-! ### Character-level helpers for the regular-expression searches

The source uses `re` patterns.  Each pattern of `app.py` is compiled by
hand into a deterministic matcher over `List Char` (every pattern in the
source is deterministic: the optional/repeated character classes never
overlap with what must follow them, so no backtracking can change the
outcome).  `re.search` semantics — try the pattern at every start
position, leftmost match wins — is implemented by the `search*` helpers
that walk the string left to right. -/

/-- Read exactly `n` decimal digits (`\d{n}`), returning their value and
the rest of the input. -/
def takeDigits : Nat → List Char → Option (Nat × List Char)
  | 0, rest => some (0, rest)
  | _ + 1, [] => none
  | n + 1, c :: rest =>
    if c.isDigit then
      match takeDigits n rest with
      | some (v, r) => some ((c.toNat - 48) * 10 ^ n + v, r)
      | none => none
    else none

/-- `[-_]` : one separator character. -/
def takeSep : List Char → Option (List Char)
  | c :: rest => if c = '-' ∨ c = '_' then some rest else none
  | [] => none

/-- `[-_]?` : optional separator (greedy; the following element of every
pattern in the source is a digit, which is not a separator, so greedy
consumption is equivalent to full backtracking search). -/
def takeOptSep (l : List Char) : List Char :=
  match l with
  | c :: rest => if c = '-' ∨ c = '_' then rest else l
  | [] => l

/-- `\d+` : one or more digits. -/
def takeDigits1 : List Char → Option (List Char)
  | c :: rest => if c.isDigit then some (rest.dropWhile Char.isDigit) else none
  | [] => none

/-- Case-insensitive literal match for an ASCII keyword. -/
def takeLitCI : List Char → List Char → Option (List Char)
  | [], rest => some rest
  | _ :: _, [] => none
  | k :: ks, c :: rest => if c.toLower = k.toLower then takeLitCI ks rest else none

/-- Case-sensitive literal match. -/
def takeLit : List Char → List Char → Option (List Char)
  | [], rest => some rest
  | _ :: _, [] => none
  | k :: ks, c :: rest => if c = k then takeLit ks rest else none

/-- Generic `re.search` driver: try matcher `m` at every position, left
to right, and return the first success. -/
def searchWith {α : Type} (m : List Char → Option α) : List Char → Option α
  | [] => m []
  | c :: rest =>
    match m (c :: rest) with
    | some r => some r
    | none => searchWith m rest

/-! ### `WA_PATTERN` (line 39 of `app.py`)

`re.compile(r'(?:IMG|VID)[-_](\d{4})(\d{2})(\d{2})[-_]WA\d+', re.IGNORECASE)` -/

/-- Match `WA_PATTERN` at the current position, returning the three
captured groups `(year, month, day)`. -/
def waMatchAt (l : List Char) : Option (Nat × Nat × Nat) := do
  let r ← match takeLitCI ['I','M','G'] l with
    | some r => some r
    | none => takeLitCI ['V','I','D'] l
  let r ← takeSep r
  let (y, r) ← takeDigits 4 r
  let (mo, r) ← takeDigits 2 r
  let (d, r) ← takeDigits 2 r
  let r ← takeSep r
  let r ← takeLitCI ['W','A'] r
  let _ ← takeDigits1 r
  pure (y, mo, d)

/-- `WA_PATTERN.search(filename)`, returning the captured date. -/
def waSearch (filename : String) : Option (Nat × Nat × Nat) :=
  searchWith waMatchAt filename.data

/-! ### `parse_filename_for_date` (lines 115-150)

The seven patterns, in source order.  A matcher returns either six
groups (date and time) or three groups (date only). -/

/-- Groups captured by one filename pattern. -/
inductive FnGroups where
  | dt (y mo d h mi s : Nat)
  | dOnly (y mo d : Nat)
deriving DecidableEq, Repr

/-- Pattern 1: `(\d{4})[-_]?(\d{2})[-_]?(\d{2})[-_]?(\d{2})[-_]?(\d{2})[-_]?(\d{2})`. -/
def fnPat1 (l : List Char) : Option FnGroups := do
  let (y, r) ← takeDigits 4 l
  let (mo, r) ← takeDigits 2 (takeOptSep r)
  let (d, r) ← takeDigits 2 (takeOptSep r)
  let (h, r) ← takeDigits 2 (takeOptSep r)
  let (mi, r) ← takeDigits 2 (takeOptSep r)
  let (s, _) ← takeDigits 2 (takeOptSep r)
  pure (.dt y mo d h mi s)

/-- Pattern 2: `(\d{4})(\d{2})(\d{2})[_-](\d{2})(\d{2})(\d{2})`. -/
def fnPat2 (l : List Char) : Option FnGroups := do
  let (y, r) ← takeDigits 4 l
  let (mo, r) ← takeDigits 2 r
  let (d, r) ← takeDigits 2 r
  let r ← takeSep r
  let (h, r) ← takeDigits 2 r
  let (mi, r) ← takeDigits 2 r
  let (s, _) ← takeDigits 2 r
  pure (.dt y mo d h mi s)

/-- Patterns 3 and 4: `IMG[-_](\d{4})(\d{2})(\d{2})[-_](\d{2})(\d{2})(\d{2})`
and the `VID` variant (case sensitive: these patterns are not compiled
with `re.IGNORECASE`). -/
def fnPat34 (kw : List Char) (l : List Char) : Option FnGroups := do
  let r ← takeLit kw l
  let r ← takeSep r
  let (y, r) ← takeDigits 4 r
  let (mo, r) ← takeDigits 2 r
  let (d, r) ← takeDigits 2 r
  let r ← takeSep r
  let (h, r) ← takeDigits 2 r
  let (mi, r) ← takeDigits 2 r
  let (s, _) ← takeDigits 2 r
  pure (.dt y mo d h mi s)

/-- Pattern 5: `IMG[-_](\d{4})(\d{2})(\d{2})[-_]\d+`. -/
def fnPat5 (l : List Char) : Option FnGroups := do
  let r ← takeLit ['I','M','G'] l
  let r ← takeSep r
  let (y, r) ← takeDigits 4 r
  let (mo, r) ← takeDigits 2 r
  let (d, r) ← takeDigits 2 r
  let r ← takeSep r
  let _ ← takeDigits1 r
  pure (.dOnly y mo d)

/-- Pattern 6: `(\d{4})[-_](\d{2})[-_](\d{2})`. -/
def fnPat6 (l : List Char) : Option FnGroups := do
  let (y, r) ← takeDigits 4 l
  let r ← takeSep r
  let (mo, r) ← takeDigits 2 r
  let r ← takeSep r
  let (d, _) ← takeDigits 2 r
  pure (.dOnly y mo d)

/-- Pattern 7: `(\d{4})(\d{2})(\d{2})`. -/
def fnPat7 (l : List Char) : Option FnGroups := do
  let (y, r) ← takeDigits 4 l
  let (mo, r) ← takeDigits 2 r
  let (d, _) ← takeDigits 2 r
  pure (.dOnly y mo d)

/-- The pattern list of `parse_filename_for_date`, in source order. -/
def fnPatterns : List (List Char → Option FnGroups) :=
  [fnPat1, fnPat2, fnPat34 ['I','M','G'], fnPat34 ['V','I','D'], fnPat5, fnPat6, fnPat7]

/-- One iteration of the pattern loop body (lines 131-148): on a match,
build the `datetime` (a `ValueError` — `none` here — means `continue`),
then apply the plausibility range check; only a passing date returns. -/
def fnTryGroups (dtToTs : PyDateTime → Int) (g : FnGroups) : Option Int :=
  match g with
  | .dt y mo d h mi s =>
    match mkPyDateTime y mo d h mi s with
    | some dt =>
      if 1970 ≤ y ∧ y ≤ 2100 ∧ 1 ≤ mo ∧ mo ≤ 12 ∧ 1 ≤ d ∧ d ≤ 31 then
        some (dtToTs dt)
      else none
    | none => none
  | .dOnly y mo d =>
    match mkPyDateTime y mo d 12 0 0 with
    | some dt =>
      if 1970 ≤ y ∧ y ≤ 2100 ∧ 1 ≤ mo ∧ mo ≤ 12 ∧ 1 ≤ d ∧ d ≤ 31 then
        some (dtToTs dt)
      else none
    | none => none

/-- `parse_filename_for_date` : first pattern whose (first) match yields a
constructible, in-range date wins; a failing match falls through to the
next pattern. -/
def parse_filename_for_date (dtToTs : PyDateTime → Int) (filename : String) : Option Int :=
  go fnPatterns
where
  go : List (List Char → Option FnGroups) → Option Int
    | [] => none
    | p :: ps =>
      match searchWith p filename.data with
      | some g =>
        match fnTryGroups dtToTs g with
        | some ts => some ts
        | none => go ps
      | none => go ps

/-- `get_timestamp_from_filename` (lines 153-166).  The WhatsApp branch
calls `datetime(year, month, day, 12, 0, 0)` with *no* surrounding
`try`: when the eight captured digits do not form a valid calendar date,
the `ValueError` escapes the whole pipeline — modelled as
`Except.error`. -/
def get_timestamp_from_filename (dtToTs : PyDateTime → Int) (filename : String) :
    Except String (Option Int × Bool) :=
  match waSearch filename with
  | some (y, mo, d) =>
    match mkPyDateTime y mo d 12 0 0 with
    | some dt => .ok (some (dtToTs dt), true)
    | none => .error "ValueError: invalid date in WhatsApp filename"
  | none => .ok (parse_filename_for_date dtToTs filename, false)

/-! ### `extract_xmp_metadata` (lines 74-112)

Operates on the raw bytes of the file (modelled as `String`).  Finds the
`<x:xmpmeta` ... `</x:xmpmeta>` block, then tries the three date
patterns in order; the first *pattern* with a match wins.  When a date
matches, the function returns immediately with `orientation := None`;
the orientation is scanned only when no date pattern matched.  A
`ValueError` from `strptime` on a matched-but-invalid date is swallowed
by the bare `except` and the whole function returns `None`. -/

/-- Result record of `extract_xmp_metadata`
(`{'timestamp': ..., 'orientation': ...}`). -/
structure XmpResult where
  timestamp : Option Int
  orientation : Option Nat
deriving DecidableEq, Repr

/-- First index at which `pat` occurs as a contiguous sublist of `l`
(`bytes.find`), or `none` (`-1` in the source). -/
def findSub (pat : List Char) : List Char → Option Nat
  | [] => if pat.isPrefixOf ([] : List Char) then some 0 else none
  | c :: rest =>
    if pat.isPrefixOf (c :: rest) then some 0
    else (findSub pat rest).map (· + 1)

/-- Characters of the class `[=>"\s]` (Python `\s`). -/
def isXmpFillChar (c : Char) : Bool :=
  c = '=' ∨ c = '>' ∨ c = '"' ∨ c = ' ' ∨ c = '\t' ∨ c = '\n' ∨ c = '\r'
    ∨ c = '\x0b' ∨ c = '\x0c'

/-- `[=>"\s]+` : one or more filler characters (greedy; what follows in
both patterns is a digit, which is not a filler character). -/
def takeXmpFill : List Char → Option (List Char)
  | c :: rest => if isXmpFillChar c then some (rest.dropWhile isXmpFillChar) else none
  | [] => none

/-- The date group `(\d{4}-\d{2}-\d{2}T\d{2}:\d{2}:\d{2})`, returned as
its six numeric components. -/
def takeXmpDate (l : List Char) : Option (Nat × Nat × Nat × Nat × Nat × Nat) := do
  let (y, r) ← takeDigits 4 l
  let r ← takeLit ['-'] r
  let (mo, r) ← takeDigits 2 r
  let r ← takeLit ['-'] r
  let (d, r) ← takeDigits 2 r
  let r ← takeLit ['T'] r
  let (h, r) ← takeDigits 2 r
  let r ← takeLit [':'] r
  let (mi, r) ← takeDigits 2 r
  let r ← takeLit [':'] r
  let (s, _) ← takeDigits 2 r
  pure (y, mo, d, h, mi, s)

/-- Matcher for one date pattern `<key>[=>"\s]+(date)` at the current
position. -/
def xmpDateMatchAt (key : List Char) (l : List Char) :
    Option (Nat × Nat × Nat × Nat × Nat × Nat) := do
  let r ← takeLit key l
  let r ← takeXmpFill r
  takeXmpDate r

/-- The three date patterns of `extract_xmp_metadata`, in source order. -/
def xmpDateKeys : List (List Char) :=
  [ "xmp:CreateDate".data, "exif:DateTimeOriginal".data, "photoshop:DateCreated".data ]

/-- The `for pattern in date_patterns` loop: first pattern with a match
anywhere in the block wins. -/
def xmpFirstDate (block : List Char) : Option (Nat × Nat × Nat × Nat × Nat × Nat) :=
  go xmpDateKeys
where
  go : List (List Char) → Option (Nat × Nat × Nat × Nat × Nat × Nat)
    | [] => none
    | k :: ks =>
      match searchWith (xmpDateMatchAt k) block with
      | some r => some r
      | none => go ks

/-- Matcher for `tiff:Orientation[=>"\s]+(\d+)` at the current position. -/
def xmpOrientMatchAt (l : List Char) : Option Nat := do
  let r ← takeLit "tiff:Orientation".data l
  let r ← takeXmpFill r
  match r with
  | c :: rest =>
    if c.isDigit then
      let ds := c :: rest.takeWhile Char.isDigit
      pure (ds.foldl (fun a d => a * 10 + (d.toNat - 48)) 0)
    else none
  | [] => none

/-- Orientation scan of the block (`re.search(orientation_pattern, ...)`
followed by `int(...)`). -/
def xmpOrientation (block : List Char) : Option Nat :=
  searchWith xmpOrientMatchAt block

/-- The XMP block slice `content[xmp_start : xmp_end + 12]`, when both
markers are found. -/
def xmpBlockOf (content : String) : Option (List Char) :=
  let cs := content.data
  match findSub "<x:xmpmeta".data cs, findSub "</x:xmpmeta>".data cs with
  | some s, some e => some ((cs.drop s).take (e + 12 - s))
  | _, _ => none

/-- `extract_xmp_metadata`. -/
def extract_xmp_metadata (dtToTs : PyDateTime → Int) (content : String) :
    Option XmpResult :=
  match xmpBlockOf content with
  | none => none
  | some block =>
    match xmpFirstDate block with
    | some (y, mo, d, h, mi, s) =>
      -- `datetime.strptime(date_str[:19], '%Y-%m-%dT%H:%M:%S')`; a
      -- ValueError here is swallowed by the bare `except: pass`, after
      -- which the function falls through to `return None`.
      match mkPyDateTime y mo d h mi s with
      | some dt => some ⟨some (dtToTs dt), none⟩
      | none => none
    | none => some ⟨none, xmpOrientation block⟩

/-! ### `parse_google_takeout_json` (lines 169-187) -/

/-- A sidecar time object such as `photoTakenTime`; its `timestamp`
field is absent or an integer (`int(...)` of the stored value). -/
structure TakeoutTimeObj where
  timestamp : Option Int
deriving DecidableEq, Repr

/-- The parsed sidecar JSON document: presence of the two recognized
top-level keys. -/
structure TakeoutJson where
  photoTakenTime : Option TakeoutTimeObj
  creationTime : Option TakeoutTimeObj
deriving DecidableEq, Repr

/-- `parse_google_takeout_json` applied to a *loaded* document.  The
argument is `none` when opening or `json.load` raised (the `try` block
catches everything and returns `None`).  Note the `elif`: when
`photoTakenTime` is present but has no `timestamp` field,
`creationTime` is not consulted. -/
def parse_google_takeout_json (doc : Option TakeoutJson) : Option Int :=
  match doc with
  | none => none
  | some data =>
    match data.photoTakenTime with
    | some obj => obj.timestamp
    | none =>
      match data.creationTime with
      | some obj => obj.timestamp
      | none => none

/-! ### The per-file timestamp resolution chain (lines 346-401)

The per-file inputs that the loop body reads from the environment are
gathered in `FileRec`:

* `name` — the bare file name (`file` in the source);
* `bytes` — the raw content of the file, scanned by
  `extract_xmp_metadata` and hashed for duplicate detection.  The SHA-1
  digest is modelled as the content itself (the spec treats hash
  collisions as equality), so the duplicate key `(size, sha1)` becomes
  `(bytes.length, bytes)`;
* `sidecar` — result of the sidecar lookup of lines 350-353: `none`
  when neither `<media>.json` nor `<stem>.json` exists beside the file,
  otherwise the outcome of loading that JSON file (`some none` when
  `json.load`/`open` raised inside `parse_google_takeout_json`);
* `exifTs` — result of the embedded EXIF `DateTimeOriginal` read of
  lines 360-366 (PIL/piexif binary parsing and `strptime`, abstracted
  to its produced epoch value; `none` covers every failure of that
  `try` block);
* `mtime` — result of `os.path.getmtime` (`none` when it raised);
* `imgFormatJpeg` — whether PIL reports the content as `JPEG`/`MPO`
  inside `set_exif_datetime`;
* `exifWriteFails` — whether the EXIF rewrite in `set_exif_datetime`
  raises for this file. -/

structure FileRec where
  name : String
  bytes : String
  sidecar : Option (Option TakeoutJson)
  exifTs : Option Int
  mtime : Option Int
  imgFormatJpeg : Bool
  exifWriteFails : Bool
deriving DecidableEq, Repr

/-- The classification strings assigned to the `classification` variable
in the loop body (`'fixed'`, `'restored_from_filename'`,
`'renamed_only'`; `'skipped'` is only ever a statistics key, never a
value of the variable). -/
inductive Classification where
  | fixed
  | restored_from_filename
  | renamed_only
deriving DecidableEq, Repr

/-- The mutable resolution state right before line 390: `timestamp`,
`classification` and `is_wa`. -/
structure Resolution where
  timestamp : Option Int
  classification : Option Classification
  is_wa : Bool
deriving DecidableEq, Repr

/-- Python truthiness of an optional integer: `if timestamp:` is false
both for `None` and for `0`. -/
def truthyTs : Option Int → Bool
  | some t => t ≠ 0
  | none => false

/-- Lines 350-357: the sidecar JSON stage.  The incoming pair is the
current `(timestamp, classification)`.  Note the truthiness test of
line 356 (`if timestamp:`). -/
def stageSidecar (f : FileRec) (tc : Option Int × Option Classification) :
    Option Int × Option Classification :=
  match f.sidecar with
  | some doc =>
    let t := parse_google_takeout_json doc
    (t, if truthyTs t then some Classification.fixed else tc.2)
  | none => tc

/-- Lines 359-369: embedded EXIF `DateTimeOriginal`, guarded by
`if timestamp is None:`; on success it sets the classification
unconditionally. -/
def stageExif (f : FileRec) (tc : Option Int × Option Classification) :
    Option Int × Option Classification :=
  if tc.1 = none then
    match f.exifTs with
    | some t => (some t, some Classification.fixed)
    | none => tc
  else tc

/-- Lines 371-375: the XMP date, guarded by `if timestamp is None:` and
the truthiness test `if xmp_data and xmp_data['timestamp']:`. -/
def stageXmp (dtToTs : PyDateTime → Int) (f : FileRec)
    (tc : Option Int × Option Classification) :
    Option Int × Option Classification :=
  if tc.1 = none then
    match extract_xmp_metadata dtToTs f.bytes with
    | some xmp =>
      if truthyTs xmp.timestamp then (xmp.timestamp, some Classification.fixed)
      else tc
    | none => tc
  else tc

/-- Lines 377-380: the filename stage.  `timestamp, is_wa =
get_timestamp_from_filename(file)` reassigns both variables whenever the
stage runs; the `ValueError` the callee can raise propagates.  When the
stage is skipped, `is_wa` keeps its initial `False`. -/
def stageFname (dtToTs : PyDateTime → Int) (f : FileRec)
    (tc : Option Int × Option Classification) :
    Except String (Option Int × Option Classification × Bool) :=
  if tc.1 = none then
    match get_timestamp_from_filename dtToTs f.name with
    | .error e => .error e
    | .ok (t, wa) =>
      .ok (t, (if truthyTs t then some Classification.restored_from_filename else tc.2), wa)
  else .ok (tc.1, tc.2, false)

/-- Lines 382-388: the opt-in mtime fallback, guarded by
`if timestamp is None and use_mtime_fallback:`. -/
def stageMtime (use_mtime_fallback : Bool) (f : FileRec)
    (tc : Option Int × Option Classification) :
    Option Int × Option Classification :=
  if tc.1 = none ∧ use_mtime_fallback then
    match f.mtime with
    | some t => (some t, some Classification.fixed)
    | none => tc
  else tc

/-- Lines 346-388: the five resolution stages executed in source order
on the initial state `timestamp = None`, `classification = None`,
`is_wa = False`.  `Except.error` models the uncaught `ValueError` that
`get_timestamp_from_filename` can raise at line 378. -/
def resolveFile (dtToTs : PyDateTime → Int) (use_mtime_fallback : Bool)
    (f : FileRec) : Except String Resolution := do
  let tc : Option Int × Option Classification := (none, none)
  let tc := stageSidecar f tc
  let tc := stageExif f tc
  let tc := stageXmp dtToTs f tc
  let (t, c, is_wa) ← stageFname dtToTs f tc
  let tc := stageMtime use_mtime_fallback f (t, c)
  pure ⟨tc.1, tc.2, is_wa⟩

/-- Per-file outcome as observable from the rest of the loop body
(lines 390-401 and 439-440): the resolved timestamp, the classification
the statistics see (`none` = the `classification` variable stayed
`None` and line 440 increments nothing), whether the file is dropped
(`skipped`), and the messaging-app flag. -/
structure Outcome where
  timestamp : Option Int
  classification : Option Classification
  skipped : Bool
  is_wa : Bool
deriving DecidableEq, Repr

/-- Lines 390-401 applied to a resolution: with no timestamp the file is
either skipped (`skip_no_metadata`) or classified `renamed_only`. -/
def outcomeOfResolution (skip_no_metadata : Bool) (r : Resolution) : Outcome :=
  match r.timestamp with
  | none =>
    if skip_no_metadata then ⟨none, r.classification, true, r.is_wa⟩
    else ⟨none, some Classification.renamed_only, false, r.is_wa⟩
  | some t => ⟨some t, r.classification, false, r.is_wa⟩

/-- The complete resolution-and-classification of one file, the subject
of claims about the fallback chain. -/
def resolveOutcome (dtToTs : PyDateTime → Int) (use_mtime_fallback skip_no_metadata : Bool)
    (f : FileRec) : Except String Outcome :=
  (resolveFile dtToTs use_mtime_fallback f).map (outcomeOfResolution skip_no_metadata)

/-! ### Specification-side statement of the fallback chain

`chainSpecAmended` is *not* translated from the source: it is written
from the (amended) specification wording of the fallback chain — a
priority cascade in which the first stage to produce a timestamp wins —
so that proving it equal to `resolveOutcome` establishes that the
sequential, mutable control flow of lines 346-401 implements that
chain.  The amendments forced by the code are the zero-timestamp
truthiness effects: a zero sidecar or filename timestamp is adopted but
leaves the classification unset, and a zero XMP timestamp is ignored
entirely. -/
def chainSpecAmended (dtToTs : PyDateTime → Int) (use_mtime_fallback skip_no_metadata : Bool)
    (f : FileRec) : Except String Outcome :=
  let noMeta : Bool → Outcome := fun wa =>
    if skip_no_metadata then ⟨none, none, true, wa⟩
    else ⟨none, some .renamed_only, false, wa⟩
  -- (1) sidecar JSON: a produced timestamp is adopted and ends the
  -- chain; classification `fixed` only when it is nonzero.
  match f.sidecar.bind parse_google_takeout_json with
  | some t =>
    .ok ⟨some t, if t = 0 then none else some .fixed, false, false⟩
  | none =>
    -- (2) embedded EXIF DateTimeOriginal: wins with `fixed`, any value.
    match f.exifTs with
    | some t => .ok ⟨some t, some .fixed, false, false⟩
    | none =>
      -- (3) XMP date: wins with `fixed`; a zero XMP timestamp is
      -- discarded as if the stage had produced nothing.
      match ((extract_xmp_metadata dtToTs f.bytes).bind XmpResult.timestamp).filter (· != 0) with
      | some t => .ok ⟨some t, some .fixed, false, false⟩
      | none =>
        -- (4) filename pattern (messaging-app pattern first): adopted;
        -- classification `restored_from_filename` only when nonzero.
        match get_timestamp_from_filename dtToTs f.name with
        | .error e => .error e
        | .ok (some t, wa) =>
          .ok ⟨some t, if t = 0 then none else some .restored_from_filename, false, wa⟩
        | .ok (none, wa) =>
          -- (5) filesystem mtime, only when enabled.
          if use_mtime_fallback then
            match f.mtime with
            | some t => .ok ⟨some t, some .fixed, false, wa⟩
            | none => .ok (noMeta wa)
          -- (6) nothing resolved: skipped or renamed_only.
          else .ok (noMeta wa)

/-! ### Kernel-reducible string primitives

`str.lower()`, `str.endswith(...)`, `str.startswith(...)` and
`str.split(sep)` are implemented over the character list so that
concrete runs evaluate inside the kernel. -/

/-- `s.lower()` (ASCII case folding, as all names in scope are ASCII). -/
def strLower (s : String) : String := String.mk (s.data.map Char.toLower)

/-- `s.endswith(suffix)`. -/
def strEndsWith (s suffix : String) : Bool := suffix.data.isSuffixOf s.data

/-- `s.startswith(prefix)`. -/
def strStartsWith (s p : String) : Bool := p.data.isPrefixOf s.data

/-- Auxiliary splitter for `splitSlash`. -/
def splitSlashAux : List Char → List Char → List String
  | [], acc => [String.mk acc.reverse]
  | c :: rest, acc =>
    if c = '/' then String.mk acc.reverse :: splitSlashAux rest []
    else splitSlashAux rest (c :: acc)

/-- `s.split('/')` — the component list of a POSIX path string. -/
def splitSlash (s : String) : List String := splitSlashAux s.data []

/-! ### `detect_export_type` (lines 284-301) -/

/-- `file.lower().endswith('.json')`. -/
def isJsonName (file : String) : Bool :=
  strEndsWith (strLower file) ".json"

/-- `file.lower().endswith(('.jpg', '.jpeg', '.png', '.heic', '.heif'))` —
the detector's media check (note: `.gif`, `.bmp`, `.webp` are *not* in
this tuple). -/
def isDetectPhotoName (file : String) : Bool :=
  let l := strLower file
  strEndsWith l ".jpg" || strEndsWith l ".jpeg" || strEndsWith l ".png"
    || strEndsWith l ".heic" || strEndsWith l ".heif"

/-- The `os.walk` loop of `detect_export_type`: the extracted tree is
the list of directories in walk order, each a list of file names.  The
two flags accumulate over the files of each directory and the
early-return check runs once per directory. -/
def detectGo : Bool → Bool → List (List String) → String
  | _, hasPhotos, [] => if hasPhotos then "apple_photos" else "unknown"
  | hasJson, hasPhotos, files :: rest =>
    let hj := hasJson || files.any isJsonName
    let hp := hasPhotos || files.any isDetectPhotoName
    if hj && hp then "google_takeout" else detectGo hj hp rest

/-- `detect_export_type`. -/
def detect_export_type (tree : List (List String)) : String :=
  detectGo false false tree

/-! ### `safe_extract_zip` (lines 46-62)

POSIX path strings.  `os.path.abspath` = join to the (already
absolute) extraction root and normalize; normalization drops empty and
`.` components and resolves `..` against the stack (a leading `..` at
the root is dropped, as `os.path.normpath` does for absolute paths).
`os.path.commonpath([root, member_path])` of two absolute normalized
paths equals the root exactly when the root's components are a prefix
of the member's; its `ValueError` cases (mixed absolute/relative
arguments) cannot occur here, so the `except ValueError` of line 59
only ever re-raises the `raise` of line 58. -/

/-- Component-level normalization of an absolute path
(`os.path.normpath` on a rooted path). -/
def normAbsGo : List String → List String → List String
  | stack, [] => stack.reverse
  | stack, c :: rest =>
    if c = "" ∨ c = "." then normAbsGo stack rest
    else if c = ".." then normAbsGo stack.tail rest
    else normAbsGo (c :: stack) rest

/-- Normalized components of an absolute path given as a component list. -/
def normAbs (l : List String) : List String := normAbsGo [] l

/-- Declarative statement of what the claim calls an offending entry:
an absolute path, or a joined-and-canonicalized destination that
escapes the extraction root. -/
def unsafeEntry (extract_path member : String) : Bool :=
  strStartsWith member "/" ||
    !(normAbs (splitSlash extract_path)).isPrefixOf
      (normAbs (splitSlash extract_path ++ splitSlash member))

/-- The body of the validation loop (lines 49-60) for one member.  The
`ValueError` raised at line 58 is caught by line 59 and re-raised with
the `unsafe path` message, which is therefore the message that
escapes. -/
def checkMember (extract_path member : String) : Except String Unit :=
  if strStartsWith member "/" then
    .error ("ZIP contains absolute path: " ++ member)
  else
    if (normAbs (splitSlash extract_path)).isPrefixOf
        (normAbs (splitSlash extract_path ++ splitSlash member)) then
      .ok ()
    else
      .error ("ZIP contains unsafe path: " ++ member)

/-- `for member in zip_file.namelist(): ...` — every entry is validated
before anything else happens. -/
def validateAll (extract_path : String) : List String → Except String Unit
  | [] => .ok ()
  | m :: rest =>
    match checkMember extract_path m with
    | .error e => .error e
    | .ok _ => validateAll extract_path rest

/-- `safe_extract_zip`: validation of the full name list, then — only
if every entry passed — `zip_file.extractall(extract_path)`.  The `ok`
payload is the list of entries actually extracted; an `error` result
means `extractall` was never reached and nothing was written. -/
def safe_extract_zip (zip_namelist : List String) (extract_path : String) :
    Except String (List String) :=
  match validateAll extract_path zip_namelist with
  | .error e => .error e
  | .ok _ => .ok zip_namelist

/-! ### `set_exif_datetime` (lines 209-281) -/

/-- The environment facts `set_exif_datetime` depends on for one file:
what PIL reports as the image format, and whether the rewrite attempt
(anywhere in the `try` of lines 217-272) raises. -/
structure ExifWriteCtx where
  imgFormatJpeg : Bool
  writeFails : Bool
deriving DecidableEq, Repr

/-- Observable outcome of `set_exif_datetime`: the returned boolean,
whether a filesystem-timestamp update (`os.utime`) was attempted, and
whether an EXIF block was embedded. -/
structure ExifWriteOutcome where
  returned : Bool
  fsUtimeAttempted : Bool
  exifEmbedded : Bool
deriving DecidableEq, Repr

/-- `set_exif_datetime`.  On any exception the handler of lines 274-281
still attempts `os.utime` (its own failure is swallowed) and returns
`False`; non-JPEG content gets a filesystem-timestamp-only update
(lines 221-225); otherwise a clean EXIF block is written and `os.utime`
runs as well (lines 227-272). -/
def set_exif_datetime (ctx : ExifWriteCtx) : ExifWriteOutcome :=
  if ctx.writeFails then ⟨false, true, false⟩
  else if ctx.imgFormatJpeg then ⟨true, true, true⟩
  else ⟨true, true, false⟩

/-! ### Decimal rendering (`str(...)` and `f"{counter:03d}"`) -/

/-- The decimal digit characters. -/
def digitChar (d : Nat) : Char := Char.ofNat (48 + d)

/-- Decimal digits of `n`, most significant first (structural recursion
on a fuel bound so that concrete evaluation reduces in the kernel). -/
def decCharsAux : Nat → Nat → List Char
  | 0, _ => []
  | fuel + 1, n =>
    if n < 10 then [digitChar n]
    else decCharsAux fuel (n / 10) ++ [digitChar (n % 10)]

/-- `str(n)` for a natural number. -/
def natStr (n : Nat) : String := String.mk (decCharsAux (n + 1) n)

/-- `f"{n:0<w>d}"` : decimal, left-padded with zeros to width `w`. -/
def padZeros (w : Nat) (n : Nat) : String :=
  String.mk (List.replicate (w - (natStr n).data.length) '0' ++ (natStr n).data)

/-- Inverse reading used to prove injectivity of the paddings. -/
def decodeDigit (c : Char) : Nat :=
  if c = '0' then 0 else if c = '1' then 1 else if c = '2' then 2
  else if c = '3' then 3 else if c = '4' then 4 else if c = '5' then 5
  else if c = '6' then 6 else if c = '7' then 7 else if c = '8' then 8
  else if c = '9' then 9 else 0

/-- Value of a digit string read back as a decimal numeral. -/
def readDecChars (l : List Char) : Nat :=
  l.foldl (fun a c => a * 10 + decodeDigit c) 0

/-! ### The processing loop of `process_google_takeout` (lines 304-450)

`process_apple_photos` (lines 453-587) repeats the same loop body
verbatim except that the sidecar stage is absent; the embedding below
is of the Takeout variant. -/

/-- Index of the last occurrence of `c`, if any. -/
def lastIndexOf (c : Char) : List Char → Option Nat
  | [] => none
  | x :: rest =>
    match lastIndexOf c rest with
    | some i => some (i + 1)
    | none => if x = c then some 0 else none

/-- `Path(name).suffix` for a bare file name: the substring from the
last `.` when that dot is neither the first nor the last character,
otherwise the empty string. -/
def pathSuffix (name : String) : String :=
  let cs := name.data
  match lastIndexOf '.' cs with
  | some i => if 0 < i ∧ i + 1 < cs.length then String.mk (cs.drop i) else ""
  | none => ""

/-- `Path(file.lower()).suffix` (line 324). -/
def fileExt (file : String) : String :=
  pathSuffix (strLower file)

/-- `photo_extensions` (line 317). -/
def photoExtensions : List String :=
  [".jpg", ".jpeg", ".png", ".heic", ".heif", ".gif", ".bmp", ".webp"]

/-- Python `dict` assignment `d[k] = v`: replace in place or append. -/
def assocSet {α β : Type} [DecidableEq α] (l : List (α × β)) (k : α) (v : β) :
    List (α × β) :=
  match l with
  | [] => [(k, v)]
  | (q, w) :: rest => if q = k then (k, v) :: rest else (q, w) :: assocSet rest k v

/-- Python `dict` lookup `d.get(k)` / `k in d`. -/
def assocGet {α β : Type} [DecidableEq α] (l : List (α × β)) (k : α) : Option β :=
  match l with
  | [] => none
  | (q, w) :: rest => if q = k then some w else assocGet rest k

/-- `os.path.exists` against the modelled output tree. -/
def fsHas (fs : List (String × String)) (p : String) : Bool :=
  (assocGet fs p).isSome

/-- The duplicate key `dup_key = (file_size, sha1-hex)` (lines 331-337).
The SHA-1 digest of the content is modelled by the content itself (the
spec treats hash collisions as equality), keeping the pair shape
`(byte length, content hash)`. -/
def dupKey (f : FileRec) : Nat × String := (f.bytes.length, f.bytes)

/-- `dt.strftime('%Y-%m-%d_%H-%M-%S')` (line 412). -/
def strftimeName (dt : PyDateTime) : String :=
  padZeros 4 dt.year ++ "-" ++ padZeros 2 dt.month ++ "-" ++ padZeros 2 dt.day
    ++ "_" ++ padZeros 2 dt.hour ++ "-" ++ padZeros 2 dt.minute ++ "-" ++ padZeros 2 dt.second

/-- Lines 412-420: the base output name with its `_WA` / `_FN` flags. -/
def buildBaseName (dt : PyDateTime) (classification : Option Classification)
    (is_wa : Bool) : String :=
  let base := strftimeName dt
  let from_filename := classification = some Classification.restored_from_filename
  let base := if is_wa then base ++ "_WA" else base
  if from_filename then base ++ "_FN" else base

/-- Candidate `k` of the collision loop: `k = 0` is the plain
`base_name + ext` of line 422, `k ≥ 1` is `f"{base_name}_{k:03d}{ext}"`
of line 428. -/
def candName (base ext : String) (k : Nat) : String :=
  if k = 0 then base ++ ext else base ++ "_" ++ padZeros 3 k ++ ext

/-- The `while os.path.exists(new_path)` loop of lines 426-430, walking
candidates from index `k` upward.  The fuel argument only bounds the
recursion; `newFilename` supplies enough fuel for the first free
candidate to be reached (proved below). -/
def collisionLoop (fs : List (String × String)) (dir base ext : String) :
    Nat → Nat → String
  | 0, k => candName base ext k
  | fuel + 1, k =>
    if fsHas fs (dir ++ "/" ++ candName base ext k) then
      collisionLoop fs dir base ext fuel (k + 1)
    else candName base ext k

/-- Lines 422-430: the collision-resolved output file name inside the
destination directory `dir`. -/
def newFilename (fs : List (String × String)) (dir base ext : String) : String :=
  collisionLoop fs dir base ext (fs.length + 1) 0

/-- Run statistics (`stats`, lines 308-315). -/
structure RunStats where
  total_files : Nat
  fixed : Nat
  restored_from_filename : Nat
  renamed_only : Nat
  skipped : Nat
  duplicates_removed : Nat
deriving DecidableEq, Repr

/-- The run-configuration flags (all default `False`). -/
structure RunConfig where
  use_mtime_fallback : Bool
  skip_no_metadata : Bool
  remove_duplicates : Bool
deriving DecidableEq, Repr

/-- Mutable state of one run of `process_google_takeout`: statistics,
the `seen_hashes` dictionary, the duplicate log, the output tree, and
the list of (ignored) `set_exif_datetime` return values — recorded only
to keep the call observable; the source discards them. -/
structure PState where
  stats : RunStats
  seen_hashes : List ((Nat × String) × String)
  duplicate_log : List String
  fs : List (String × String)
  exifReturns : List Bool
deriving DecidableEq, Repr

/-- The state at the top of the walk (lines 308-319). -/
def initPState : PState := ⟨⟨0, 0, 0, 0, 0, 0⟩, [], [], [], []⟩

/-- Line 439-440: `if classification: stats[classification] += 1`. -/
def bumpClassification (st : PState) (c : Option Classification) : PState :=
  match c with
  | some Classification.fixed =>
    { st with stats := { st.stats with fixed := st.stats.fixed + 1 } }
  | some Classification.restored_from_filename =>
    { st with stats :=
        { st.stats with restored_from_filename := st.stats.restored_from_filename + 1 } }
  | some Classification.renamed_only =>
    { st with stats := { st.stats with renamed_only := st.stats.renamed_only + 1 } }
  | none => st

/-- The loop body of `process_google_takeout` for one walked file
(lines 322-440), in source order: extension filter, duplicate gate,
resolution chain, skip / review-copy / year-bucket output. -/
def processOne (dtToTs : PyDateTime → Int) (fromTs : Int → Option PyDateTime)
    (cfg : RunConfig) (st : PState) (f : FileRec) : Except String PState :=
  if photoExtensions.contains (fileExt f.name) then
    let file_ext := fileExt f.name
    let st := { st with stats := { st.stats with total_files := st.stats.total_files + 1 } }
    if cfg.remove_duplicates ∧ (assocGet st.seen_hashes (dupKey f)).isSome then
      -- lines 339-342: later exact duplicate — count, log, `continue`
      let kept := (assocGet st.seen_hashes (dupKey f)).getD ""
      .ok { st with
        stats := { st.stats with duplicates_removed := st.stats.duplicates_removed + 1 },
        duplicate_log := st.duplicate_log ++ [f.name ++ " -> duplicate of " ++ kept] }
    else
      -- line 344: `seen_hashes[dup_key] = file`
      let st := { st with seen_hashes := assocSet st.seen_hashes (dupKey f) f.name }
      match resolveFile dtToTs cfg.use_mtime_fallback f with
      | .error e => .error e
      | .ok r =>
        match r.timestamp with
        | none =>
          if cfg.skip_no_metadata then
            -- lines 391-393
            .ok { st with stats := { st.stats with skipped := st.stats.skipped + 1 } }
          else
            -- lines 394-401: copy unchanged to `Needs_Review/<file>`
            .ok { st with
              stats := { st.stats with renamed_only := st.stats.renamed_only + 1 },
              fs := assocSet st.fs ("Needs_Review/" ++ f.name) f.bytes }
        | some timestamp =>
          -- line 403: `datetime.fromtimestamp` can raise, uncaught
          match fromTs timestamp with
          | none => .error "OverflowError: timestamp out of fromtimestamp range"
          | some dt =>
            let year_folder := natStr dt.year
            let base_name := buildBaseName dt r.classification r.is_wa
            let nm := newFilename st.fs year_folder base_name file_ext
            let st := { st with fs := assocSet st.fs (year_folder ++ "/" ++ nm) f.bytes }
            -- lines 434-437: EXIF write for .jpg/.jpeg (returned value
            -- ignored by the caller), plain utime otherwise
            let st :=
              if file_ext = ".jpg" ∨ file_ext = ".jpeg" then
                { st with exifReturns := st.exifReturns ++
                    [(set_exif_datetime ⟨f.imgFormatJpeg, f.exifWriteFails⟩).returned] }
              else st
            .ok (bumpClassification st r.classification)
  else .ok st

/-- The `for` loop over the walked files: run the body on each file in
order, stopping at the first uncaught exception. -/
def processAll (dtToTs : PyDateTime → Int) (fromTs : Int → Option PyDateTime)
    (cfg : RunConfig) : PState → List FileRec → Except String PState
  | st, [] => .ok st
  | st, f :: rest =>
    match processOne dtToTs fromTs cfg st f with
    | .error e => .error e
    | .ok st2 => processAll dtToTs fromTs cfg st2 rest

/-- The whole walk of `process_google_takeout`, over the files of the
extracted tree in walk order. -/
def runPipeline (dtToTs : PyDateTime → Int) (fromTs : Int → Option PyDateTime)
    (cfg : RunConfig) (files : List FileRec) : Except String PState :=
  processAll dtToTs fromTs cfg initPState files

/-- Lines 443-448: `duplicates_report.txt` is materialized exactly when
duplicate removal is on and at least one duplicate was removed; its
content is the header line, a blank line, then the log lines. -/
def duplicatesReport (cfg : RunConfig) (st : PState) : Option String :=
  if cfg.remove_duplicates ∧ 0 < st.stats.duplicates_removed then
    some ("Duplicates removed: " ++ natStr st.stats.duplicates_removed ++ "\n\n"
      ++ String.join (st.duplicate_log.map (· ++ "\n")))
  else none

/-! ### Declarative description of duplicate removal (for claim C5) -/

/-- The first media file of `pre` (walk order) with duplicate key `k` —
the "kept" file whose name the duplicate log cites. -/
def firstKeeper (pre : List FileRec) (k : Nat × String) : Option String :=
  (pre.find? (fun g => photoExtensions.contains (fileExt g.name) && dupKey g == k)).map
    (fun g => g.name)

/-- Specification-side duplicate log: one line per media file whose key
was already seen on an earlier media file, citing the first-seen name.
Written from the claim's wording, independently of the dictionary-based
loop. -/
def dupEntries : List FileRec → List FileRec → List String
  | _, [] => []
  | pre, f :: rest =>
    if photoExtensions.contains (fileExt f.name) then
      match firstKeeper pre (dupKey f) with
      | some kept =>
        (f.name ++ " -> duplicate of " ++ kept) :: dupEntries (pre ++ [f]) rest
      | none => dupEntries (pre ++ [f]) rest
    else dupEntries (pre ++ [f]) rest

-- Decidable equality of modelled run results.
deriving instance DecidableEq for Except

/-! ### Concrete sample inputs used by counterexamples and witnesses -/

/-- A local-time conversion for which noon maps to a nonzero epoch value
and the sampled XMP date (03:04:05) maps to zero. -/
def c2SampleDt : PyDateTime → Int := fun dt => if dt.hour = 12 then 777 else 0

/-- A file whose XMP block carries a date and whose name carries a
parseable date. -/
def c2SampleFile : FileRec :=
  { name := "2015-07-01.jpg"
    bytes := "junk<x:xmpmeta xmp:CreateDate=\"2023-01-02T03:04:05\"</x:xmpmeta>tail"
    sidecar := none, exifTs := none, mtime := none
    imgFormatJpeg := true, exifWriteFails := false }

/-- A file with a sidecar JSON whose `photoTakenTime.timestamp` is `0`. -/
def c3SampleFile : FileRec :=
  { name := "photo.jpg", bytes := ""
    sidecar := some (some ⟨some ⟨some 0⟩, none⟩)
    exifTs := none, mtime := none
    imgFormatJpeg := true, exifWriteFails := false }

/-- Raw content whose XMP block holds both a date and a
`tiff:Orientation` value. -/
def c8SampleContent : String :=
  "junk<x:xmpmeta xmp:CreateDate=\"2023-01-02T03:04:05\" tiff:Orientation=\"6\"</x:xmpmeta>tail"

/-- A `.jpg` file resolvable from EXIF, used to compare a run where its
EXIF rewrite fails with one where it succeeds. -/
def c9SampleFile (fails : Bool) : FileRec :=
  { name := "a.jpg", bytes := "JJ"
    sidecar := none, exifTs := some 5, mtime := none
    imgFormatJpeg := true, exifWriteFails := fails }

/-- Fixed local-time reading used by concrete pipeline runs. -/
def sampleFromTs : Int → Option PyDateTime := fun _ => some ⟨2020, 1, 2, 3, 4, 5⟩

/-- Two byte-identical media files for the duplicate-removal witness. -/
def c5KeptFile : FileRec :=
  { name := "g.jpg", bytes := "AA"
    sidecar := none, exifTs := some 5, mtime := none
    imgFormatJpeg := true, exifWriteFails := false }

/-- Same content as `c5KeptFile`, later in walk order. -/
def c5DupFile : FileRec :=
  { name := "f.jpg", bytes := "AA"
    sidecar := none, exifTs := some 5, mtime := none
    imgFormatJpeg := true, exifWriteFails := false }

/-- Final state of the two-file duplicate-removal run used as witness. -/
def c5FinalState : PState :=
  { stats :=
      { total_files := 2, fixed := 1, restored_from_filename := 0,
        renamed_only := 0, skipped := 0, duplicates_removed := 1 },
    seen_hashes := [((2, "AA"), "g.jpg")],
    duplicate_log := ["f.jpg -> duplicate of g.jpg"],
    fs := [("2020/2020-01-02_03-04-05.jpg", "AA")],
    exifReturns := [true] }

/-- Whether the resolution chain produces no timestamp for the file
(the `renamed_only`/`skipped` branch of lines 390-401 is taken). -/
def noTimestampB (dtToTs : PyDateTime → Int) (umf : Bool) (f : FileRec) : Bool :=
  decide ((resolveFile dtToTs umf f).map Resolution.timestamp = Except.ok none)

/-- Whether a file triggers a `Needs_Review` copy under name `nm` in a
`skip_no_metadata = False` run. -/
def reviewWriterB (dtToTs : PyDateTime → Int) (umf : Bool) (nm : String) (f : FileRec) : Bool :=
  photoExtensions.contains (fileExt f.name) && noTimestampB dtToTs umf f && (f.name == nm)

/-- The last file of the walk that writes `Needs_Review/<nm>` — the one
whose content the final output holds, since each later copy overwrites
the earlier one. -/
def lastReviewWrite (dtToTs : PyDateTime → Int) (umf : Bool) (nm : String) :
    List FileRec → Option FileRec
  | [] => none
  | f :: rest =>
    match lastReviewWrite dtToTs umf nm rest with
    | some y => some y
    | none => if reviewWriterB dtToTs umf nm f then some f else none

/-- An unresolvable media file (no sidecar, EXIF, XMP, filename date). -/
def c10File (nm content : String) : FileRec :=
  { name := nm, bytes := content
    sidecar := none, exifTs := none, mtime := none
    imgFormatJpeg := true, exifWriteFails := false }

/-- Final state of a two-file run of two unresolvable media files
sharing the one name `dup.jpg` (contents `X1` then `X2`). -/
def c10FinalState : PState :=
  { stats := ⟨2, 0, 0, 2, 0, 0⟩,
    seen_hashes := [((2, "X1"), "dup.jpg"), ((2, "X2"), "dup.jpg")],
    duplicate_log := [],
    fs := [("Needs_Review/dup.jpg", "X2")],
    exifReturns := [] }

/-- The name assignment for a run of files that all resolve to the same
base name in the same destination directory: each file receives
`newFilename` against the current directory content and its path is
then created by the copy of line 432, exactly as the year-bucket branch
does for files resolving to the identical second and flags. -/
def assignSeq (fs : List (String × String)) (dir base ext : String) : Nat → List String
  | 0 => []
  | n + 1 =>
    let nm := newFilename fs dir base ext
    nm :: assignSeq (assocSet fs (dir ++ "/" ++ nm) "") dir base ext n

/-- Forget the recorded `set_exif_datetime` return values (the source
discards them); everything the run reports — statistics, duplicate log,
output tree — is retained. -/
def eraseExifReturns (st : PState) : PState := { st with exifReturns := [] }

/-- The spec's messaging-app example file, with no other metadata. -/
def c6SampleFile : FileRec :=
  { name := "IMG-20230615-WA0007.jpg", bytes := ""
    sidecar := none, exifTs := none, mtime := none
    imgFormatJpeg := true, exifWriteFails := false }

/-! ## Theorems

Helper lemmas first, then one theorem per claim (with its witness or
counterexample where required). -/

/-- Stage 1 on the initial state, rephrased through the sidecar lookup
result. -/
theorem stageSidecar_eval (f : FileRec) :
    stageSidecar f (none, none) =
      match f.sidecar.bind parse_google_takeout_json with
      | some t => (some t, if t = 0 then none else some Classification.fixed)
      | none => (none, none) := by
  rcases hs : f.sidecar with _ | doc
  · simp [stageSidecar, hs]
  · rcases hp : parse_google_takeout_json doc with _ | t
    · simp [stageSidecar, hs, hp, truthyTs]
    · by_cases h : t = 0 <;> simp [stageSidecar, hs, hp, truthyTs, h]

/-- Stage 2 with no timestamp yet. -/
theorem stageExif_none (f : FileRec) (c : Option Classification) :
    stageExif f (none, c) =
      match f.exifTs with
      | some t => (some t, some Classification.fixed)
      | none => (none, c) := by
  rcases he : f.exifTs with _ | t <;> simp [stageExif, he]

/-- Stage 2 is a no-op once a timestamp is set. -/
theorem stageExif_some (f : FileRec) (t : Int) (c : Option Classification) :
    stageExif f (some t, c) = (some t, c) := by simp [stageExif]

/-- Stage 3 with no timestamp yet, rephrased through the XMP timestamp
with zero filtered out. -/
theorem stageXmp_none (dtToTs : PyDateTime → Int) (f : FileRec) (c : Option Classification) :
    stageXmp dtToTs f (none, c) =
      match ((extract_xmp_metadata dtToTs f.bytes).bind XmpResult.timestamp).filter (· != 0) with
      | some t => (some t, some Classification.fixed)
      | none => (none, c) := by
  rcases hx : extract_xmp_metadata dtToTs f.bytes with _ | ⟨(_ | xt), xo⟩
  · simp [stageXmp, hx]
  · simp [stageXmp, hx, truthyTs]
  · by_cases h : xt = 0 <;> simp [stageXmp, hx, truthyTs, h, Option.filter]

/-- Stage 3 is a no-op once a timestamp is set. -/
theorem stageXmp_some (dtToTs : PyDateTime → Int) (f : FileRec) (t : Int)
    (c : Option Classification) :
    stageXmp dtToTs f (some t, c) = (some t, c) := by simp [stageXmp]

/-- Stage 4 with no timestamp yet. -/
theorem stageFname_none (dtToTs : PyDateTime → Int) (f : FileRec) (c : Option Classification) :
    stageFname dtToTs f (none, c) =
      match get_timestamp_from_filename dtToTs f.name with
      | .error e => .error e
      | .ok (some t, wa) =>
        .ok (some t, (if t = 0 then c else some Classification.restored_from_filename), wa)
      | .ok (none, wa) => .ok (none, c, wa) := by
  rcases hg : get_timestamp_from_filename dtToTs f.name with e | ⟨(_ | t), wa⟩
  · simp [stageFname, hg]
  · simp [stageFname, hg, truthyTs]
  · by_cases h : t = 0 <;> simp [stageFname, hg, truthyTs, h]

/-- Stage 4 is skipped once a timestamp is set (`is_wa` stays `False`). -/
theorem stageFname_some (dtToTs : PyDateTime → Int) (f : FileRec) (t : Int)
    (c : Option Classification) :
    stageFname dtToTs f (some t, c) = .ok (some t, c, false) := by simp [stageFname]

/-- Stage 5 with no timestamp yet. -/
theorem stageMtime_none (umf : Bool) (f : FileRec) (c : Option Classification) :
    stageMtime umf f (none, c) =
      (if umf then
        match f.mtime with
        | some t => (some t, some Classification.fixed)
        | none => (none, c)
      else (none, c)) := by
  cases umf <;> rcases hm : f.mtime with _ | tm <;> simp [stageMtime, hm]

/-- Stage 5 is a no-op once a timestamp is set. -/
theorem stageMtime_some (umf : Bool) (f : FileRec) (t : Int) (c : Option Classification) :
    stageMtime umf f (some t, c) = (some t, c) := by simp [stageMtime]

/-- The sequential mutable control flow of lines 346-401 implements the
priority cascade `chainSpecAmended` (internal helper, restated by the
claim theorem below). -/
theorem resolve_eq_chainSpec (dtToTs : PyDateTime → Int) (umf snm : Bool) (f : FileRec) :
    resolveOutcome dtToTs umf snm f = chainSpecAmended dtToTs umf snm f := by
  unfold resolveOutcome resolveFile chainSpecAmended
  dsimp only
  rw [stageSidecar_eval]
  rcases h1 : f.sidecar.bind parse_google_takeout_json with _ | t1
  · rw [stageExif_none]
    rcases h2 : f.exifTs with _ | t2
    · rw [stageXmp_none]
      rcases h3 : ((extract_xmp_metadata dtToTs f.bytes).bind XmpResult.timestamp).filter (· != 0)
        with _ | t3
      · rw [stageFname_none]
        rcases h4 : get_timestamp_from_filename dtToTs f.name with e | ⟨(_ | t4), wa⟩
        · simp [outcomeOfResolution, Except.map]
        · cases umf <;> rcases hm : f.mtime with _ | tm <;> cases snm <;>
            simp [outcomeOfResolution, stageMtime_none, Except.map, hm]
        · by_cases h0 : t4 = 0 <;> simp [outcomeOfResolution, stageMtime_some, Except.map, h0]
      · simp [stageFname_some, stageMtime_some, outcomeOfResolution, Except.map]
    · simp [stageXmp_some, stageFname_some, stageMtime_some, outcomeOfResolution, Except.map]
  · by_cases h0 : t1 = 0 <;>
      simp [stageExif_some, stageXmp_some, stageFname_some, stageMtime_some,
        outcomeOfResolution, Except.map, h0]

/-- C2 (counterexample): the XMP stage is the first to produce a
timestamp (the value `0`), yet it does not win: the chain falls through
to the filename stage, which resolves `777` with classification
`restored_from_filename` instead of the claimed `fixed`. -/
theorem c2_counterexample :
    (extract_xmp_metadata c2SampleDt c2SampleFile.bytes).bind XmpResult.timestamp = some 0 ∧
    resolveOutcome c2SampleDt false false c2SampleFile =
      .ok ⟨some 777, some Classification.restored_from_filename, false, false⟩ ∧
    resolveOutcome c2SampleDt false false c2SampleFile ≠
      .ok ⟨some 0, some Classification.fixed, false, false⟩ := by
  refine ⟨by decide, by decide, by decide⟩

/-- C2 (amended): the resolution is the fixed fallback chain
sidecar → EXIF → XMP → filename → mtime (opt-in) → skipped/renamed_only,
first stage to produce a timestamp wins and later stages are not
consulted, with the zero-timestamp caveats the code forces: a zero
sidecar or filename timestamp is adopted as the resolved timestamp but
leaves the file unclassified, and a zero XMP timestamp is discarded
entirely. -/
theorem c2_fallback_chain (dtToTs : PyDateTime → Int) (umf snm : Bool) (f : FileRec) :
    resolveOutcome dtToTs umf snm f = chainSpecAmended dtToTs umf snm f :=
  resolve_eq_chainSpec dtToTs umf snm f

/-- C3: evaluation of the pipeline chain at the failing input — a
sidecar carrying `photoTakenTime.timestamp = 0`.  The timestamp is
resolved to `0` exactly, but because of the `if timestamp:` truthiness
test of line 356 the classification stays `None` instead of the
specified `fixed`. -/
theorem c3_zero_sidecar_eval :
    resolveOutcome (fun _ => 999) false false c3SampleFile =
      .ok ⟨some 0, none, false, false⟩ ∧
    ∀ t : Int, t ≠ 0 →
      resolveOutcome (fun _ => 999) false false
        { c3SampleFile with sidecar := some (some ⟨some ⟨some t⟩, none⟩) } =
      .ok ⟨some t, some Classification.fixed, false, false⟩ := by
  constructor
  · decide
  · intro t ht
    rw [resolve_eq_chainSpec]
    simp [chainSpecAmended, c3SampleFile, parse_google_takeout_json, Option.bind, ht]

/-- The accumulating walk of `detect_export_type`, characterized
declaratively (as long as the early-return condition has not fired). -/
theorem detectGo_eval (tree : List (List String)) : ∀ hj hp : Bool, (hj && hp) = false →
    detectGo hj hp tree =
      (if (hj || tree.any (fun files => files.any isJsonName))
          && (hp || tree.any (fun files => files.any isDetectPhotoName)) then "google_takeout"
       else if hp || tree.any (fun files => files.any isDetectPhotoName) then "apple_photos"
       else "unknown") := by
  induction tree with
  | nil =>
    intro hj hp h
    simp only [detectGo, List.any_nil, Bool.or_false, h]
    simp
  | cons files rest ih =>
    intro hj hp h
    simp only [detectGo, List.any_cons]
    by_cases hcond : ((hj || files.any isJsonName) && (hp || files.any isDetectPhotoName)) = true
    · rw [if_pos hcond]
      rcases Bool.and_eq_true_iff.mp hcond with ⟨h1, h2⟩
      have hj2 : (hj || (files.any isJsonName
          || rest.any (fun fl => fl.any isJsonName))) = true := by
        rw [← Bool.or_assoc, h1, Bool.true_or]
      have hp2 : (hp || (files.any isDetectPhotoName
          || rest.any (fun fl => fl.any isDetectPhotoName))) = true := by
        rw [← Bool.or_assoc, h2, Bool.true_or]
      simp only [hj2, hp2, Bool.true_and, if_pos]
    · rw [if_neg hcond, ih _ _ (by simpa using hcond)]
      simp only [Bool.or_assoc]

/-- C4 (counterexample): trees whose only media files are `.gif`,
`.bmp` or `.webp` are classified `"unknown"`, not `"apple_photos"`:
the tuple checked by `detect_export_type` (line 292) stops at `.heif`
and does not include `.gif`, `.bmp`, `.webp`. -/
theorem c4_counterexample :
    detect_export_type [["holiday.gif"]] = "unknown" ∧
    detect_export_type [["holiday.gif"]] ≠ "apple_photos" ∧
    detect_export_type [["scan.bmp", "clip.webp"]] = "unknown" := by
  refine ⟨by decide, by decide, by decide⟩

/-- C4 (amended): `detect_export_type` returns `google_takeout` for
every extracted tree containing both a `.json` file and a file with a
*detector-recognized* media extension — case-insensitive `.jpg` `.jpeg`
`.png` `.heic` `.heif` only — `apple_photos` for every tree containing
such media but no `.json`, and `unknown` otherwise; trees whose only
media are `.gif`/`.bmp`/`.webp` fall into `unknown`. -/
theorem c4_detect_export_type (tree : List (List String)) :
    detect_export_type tree =
      (if tree.any (fun files => files.any isJsonName)
          && tree.any (fun files => files.any isDetectPhotoName) then "google_takeout"
       else if tree.any (fun files => files.any isDetectPhotoName) then "apple_photos"
       else "unknown") := by
  have h := detectGo_eval tree false false rfl
  simpa [detect_export_type] using h

/-- An erroring `checkMember` means the entry is offending, and the
message is one of the two member-naming messages. -/
theorem checkMember_error (extract_path m e : String)
    (h : checkMember extract_path m = .error e) :
    unsafeEntry extract_path m = true ∧
      (e = "ZIP contains absolute path: " ++ m ∨
        e = "ZIP contains unsafe path: " ++ m) := by
  unfold checkMember at h
  unfold unsafeEntry
  by_cases habs : strStartsWith m "/"
  · simp only [habs, if_true] at h
    refine ⟨by simp [habs], Or.inl (by exact (Except.error.injEq _ _).mp h |>.symm)⟩
  · simp only [habs, if_false, Bool.false_eq_true] at h
    by_cases hpre : (normAbs (splitSlash extract_path)).isPrefixOf
        (normAbs (splitSlash extract_path ++ splitSlash m))
    · simp [hpre] at h
    · simp only [hpre, if_false, Bool.false_eq_true] at h
      refine ⟨by simp [habs, hpre], Or.inr (by exact (Except.error.injEq _ _).mp h |>.symm)⟩

/-- A passing `checkMember` means the entry is not offending. -/
theorem checkMember_ok (extract_path m : String)
    (h : checkMember extract_path m = .ok ()) :
    unsafeEntry extract_path m = false := by
  unfold checkMember at h
  unfold unsafeEntry
  by_cases habs : strStartsWith m "/"
  · simp [habs] at h
  · by_cases hpre : (normAbs (splitSlash extract_path)).isPrefixOf
        (normAbs (splitSlash extract_path ++ splitSlash m))
    · simp [habs, hpre]
    · simp [habs, hpre] at h

/-- C1: for every archive containing at least one entry that is an
absolute path or whose joined-and-canonicalized destination escapes the
extraction root, `safe_extract_zip` returns an error whose message
names an offending entry, and no entry is extracted (the `ok` payload —
the extracted entries — is never produced, because `extractall` runs
only after the validation loop over the whole name list succeeds). -/
theorem c1_safe_extract_zip (extract_path : String) (members : List String)
    (h : ∃ m ∈ members, unsafeEntry extract_path m = true) :
    ∃ bad ∈ members, unsafeEntry extract_path bad = true ∧
      (safe_extract_zip members extract_path =
          .error ("ZIP contains absolute path: " ++ bad) ∨
        safe_extract_zip members extract_path =
          .error ("ZIP contains unsafe path: " ++ bad)) ∧
      ∀ extracted : List String,
        safe_extract_zip members extract_path ≠ .ok extracted := by
  induction members with
  | nil => simp at h
  | cons m rest ih =>
    rcases hc : checkMember extract_path m with e | u
    · rcases checkMember_error extract_path m e hc with ⟨hbad, hmsg⟩
      refine ⟨m, List.mem_cons_self m rest, hbad, ?_, ?_⟩
      · have : safe_extract_zip (m :: rest) extract_path = .error e := by
          simp [safe_extract_zip, validateAll, hc]
        rcases hmsg with h1 | h2
        · exact Or.inl (h1 ▸ this)
        · exact Or.inr (h2 ▸ this)
      · intro extracted
        simp [safe_extract_zip, validateAll, hc]
    · have hm : unsafeEntry extract_path m = false := by
        cases u; exact checkMember_ok extract_path m hc
      have hrest : ∃ x ∈ rest, unsafeEntry extract_path x = true := by
        rcases h with ⟨x, hx, hux⟩
        rcases List.mem_cons.mp hx with rfl | hx'
        · rw [hm] at hux; cases hux
        · exact ⟨x, hx', hux⟩
      rcases ih hrest with ⟨bad, hmem, hbad, hres, hok⟩
      cases u
      rcases hv : validateAll extract_path rest with e | u
      · have hstep : safe_extract_zip (m :: rest) extract_path = .error e := by
          simp [safe_extract_zip, validateAll, hc, hv]
        have hstep2 : safe_extract_zip rest extract_path = .error e := by
          simp [safe_extract_zip, hv]
        refine ⟨bad, List.mem_cons_of_mem m hmem, hbad, ?_, ?_⟩
        · rw [hstep, ← hstep2]; exact hres
        · intro extracted; rw [hstep]; exact fun hcon => Except.noConfusion hcon
      · exact absurd (by simp [safe_extract_zip, hv] : safe_extract_zip rest extract_path = .ok rest)
          (hok rest)

/-- C1 (witness): the spec's own example — an archive holding
`../../etc/passerby.jpg` fails with the unsafe-path error naming that
entry and extracts nothing. -/
theorem c1_witness :
    (∃ m ∈ ["photos/a.jpg", "../../etc/passerby.jpg"],
        unsafeEntry "/tmp/extract" m = true) ∧
    safe_extract_zip ["photos/a.jpg", "../../etc/passerby.jpg"] "/tmp/extract" =
      .error ("ZIP contains unsafe path: " ++ "../../etc/passerby.jpg") := by
  constructor
  · rcases c1_safe_extract_zip "/tmp/extract" ["photos/a.jpg", "../../etc/passerby.jpg"]
      ⟨"../../etc/passerby.jpg", by decide, by decide⟩ with ⟨bad, hmem, hbad, _, _⟩
    exact ⟨bad, hmem, hbad⟩
  · decide

/-- C6: for every file whose name matches the messaging-app pattern
with a valid calendar date and for which neither sidecar nor EXIF nor
XMP yields a timestamp, the resolved timestamp is `datetime(y, m, d,
12, 0, 0).timestamp()` — noon local time on that date — `is_wa` is
true, the classification is `restored_from_filename`, and the base
output name ends in `_WA_FN` (before any collision counter and
extension).  The nonzero hypothesis excludes the epoch-zero corner that
no real timezone produces for such dates. -/
theorem c6_messaging_app_filename (dtToTs : PyDateTime → Int) (umf snm : Bool) (f : FileRec)
    (y mo d : Nat) (dtv : PyDateTime)
    (hwa : waSearch f.name = some (y, mo, d))
    (hdt : mkPyDateTime y mo d 12 0 0 = some dtv)
    (hs : f.sidecar.bind parse_google_takeout_json = none)
    (he : f.exifTs = none)
    (hx : ((extract_xmp_metadata dtToTs f.bytes).bind XmpResult.timestamp).filter (· != 0) = none)
    (h0 : dtToTs dtv ≠ 0) :
    resolveOutcome dtToTs umf snm f =
      .ok ⟨some (dtToTs dtv), some Classification.restored_from_filename, false, true⟩ ∧
    ∀ dt : PyDateTime,
      ∃ s, buildBaseName dt (some Classification.restored_from_filename) true =
        s ++ "_WA_FN" := by
  constructor
  · rw [resolve_eq_chainSpec]
    unfold chainSpecAmended get_timestamp_from_filename
    simp only [hs, he, hx, hwa, hdt]
    simp [h0]
  · intro dt
    refine ⟨strftimeName dt, ?_⟩
    unfold buildBaseName
    simp only [if_pos rfl, if_true]
    rw [String.append_assoc]
    rfl

/-- C6 (witness): `IMG-20230615-WA0007.jpg` under the conversion that
sends every datetime to `1`. -/
theorem c6_witness :
    resolveOutcome (fun _ => 1) false false c6SampleFile =
      .ok ⟨some 1, some Classification.restored_from_filename, false, true⟩ ∧
    ∀ dt : PyDateTime,
      ∃ s, buildBaseName dt (some Classification.restored_from_filename) true =
        s ++ "_WA_FN" :=
  c6_messaging_app_filename (fun _ => 1) false false c6SampleFile 2023 6 15
    ⟨2023, 6, 15, 12, 0, 0⟩ (by decide) (by decide) (by decide) (by decide)
    (by decide) (by decide)

/-- C8 (counterexample): a block holding both a date and
`tiff:Orientation 6` — the function returns the date with orientation
`None`, not the claimed orientation value: the date branch of lines
94-99 returns before the orientation scan of lines 101-105 runs. -/
theorem c8_counterexample :
    extract_xmp_metadata (fun _ => 42) c8SampleContent =
      some ⟨some 42, none⟩ ∧
    (xmpBlockOf c8SampleContent).map xmpOrientation = some (some 6) := by
  refine ⟨by decide, by decide⟩

/-- C8 (amended): the orientation is extracted from the XMP block only
when no date pattern matched; whenever a date was found (the returned
timestamp is present), the returned orientation is `None`, and when no
date was found the returned orientation is exactly the orientation scan
of the block. -/
theorem c8_orientation_only_without_date (dtToTs : PyDateTime → Int) (content : String)
    (r : XmpResult) (h : extract_xmp_metadata dtToTs content = some r) :
    (r.timestamp.isSome → r.orientation = none) ∧
    (r.timestamp = none → (xmpBlockOf content).map xmpOrientation = some r.orientation) := by
  unfold extract_xmp_metadata at h
  rcases hb : xmpBlockOf content with _ | block <;> simp only [hb] at h
  · cases h
  · rcases hd : xmpFirstDate block with _ | ⟨y, mo, d, hh, mi, ss⟩ <;> simp only [hd] at h
    · simp only [Option.some.injEq] at h
      subst h
      exact ⟨fun hsome => by simp at hsome, fun _ => by simp [hb]⟩
    · rcases hm : mkPyDateTime y mo d hh mi ss with _ | dt <;> simp only [hm] at h
      · cases h
      · simp only [Option.some.injEq] at h
        subst h
        exact ⟨fun _ => rfl, fun hnone => by simp at hnone⟩

/-- C8 (witness): the amended theorem applied to the sample content:
its date is found, so the returned orientation is `None`. -/
theorem c8_witness :
    (⟨some 42, none⟩ : XmpResult).orientation = none :=
  (c8_orientation_only_without_date (fun _ => 42) c8SampleContent
    ⟨some 42, none⟩ (by decide)).1 (by decide)

/-- Decimal digits decode back to their value. -/
theorem decodeDigit_digitChar (d : Nat) (h : d < 10) : decodeDigit (digitChar d) = d := by
  interval_cases d <;> rfl

/-- Reading back `decCharsAux` recovers the rendered number. -/
theorem readDec_decCharsAux : ∀ fuel n a, n ≤ fuel →
    List.foldl (fun a c => a * 10 + decodeDigit c) a (decCharsAux fuel n) =
      a * 10 ^ (decCharsAux fuel n).length + n := by
  intro fuel
  induction fuel with
  | zero =>
    intro n a h
    interval_cases n
    simp [decCharsAux]
  | succ fuel ih =>
    intro n a h
    by_cases hn : n < 10
    · simp [decCharsAux, hn, decodeDigit_digitChar n hn]
    · have h10 : 10 ≤ n := Nat.le_of_not_lt hn
      have hdiv : n / 10 ≤ fuel := by
        have : n / 10 < n := Nat.div_lt_self (by omega) (by omega)
        omega
      simp only [decCharsAux, hn, if_false, List.foldl_append, List.length_append,
        List.foldl_cons, List.foldl_nil, List.length_cons, List.length_nil]
      rw [ih (n / 10) a hdiv, decodeDigit_digitChar (n % 10) (Nat.mod_lt n (by omega))]
      have key : ∀ L q r b : Nat,
          (b * 10 ^ L + q) * 10 + r = b * 10 ^ (L + (0 + 1)) + (q * 10 + r) := by
        intro L q r b; ring
      rw [key]
      have hq : n / 10 * 10 + n % 10 = n := by omega
      rw [hq]

/-- Reading back `natStr` recovers the number. -/
theorem readDec_natStr (n : Nat) : readDecChars (natStr n).data = n := by
  have h := readDec_decCharsAux (n + 1) n 0 (Nat.le_succ n)
  simpa [readDecChars, natStr] using h

/-- Leading zeros do not change the read-back value. -/
theorem readDec_replicate_zero (k : Nat) (l : List Char) :
    readDecChars (List.replicate k '0' ++ l) = readDecChars l := by
  induction k with
  | zero => simp
  | succ k ih =>
    simpa [readDecChars, List.replicate_succ, decodeDigit] using ih

/-- Reading back a zero-padded rendering recovers the number. -/
theorem readDec_padZeros (w n : Nat) : readDecChars (padZeros w n).data = n := by
  have h := readDec_replicate_zero (w - (natStr n).data.length) (natStr n).data
  simpa [padZeros, readDec_natStr n] using h

/-- `f"{n:03d}"` renderings are injective. -/
theorem padZeros_data_inj (w a b : Nat) (h : (padZeros w a).data = (padZeros w b).data) :
    a = b := by
  have := congrArg readDecChars h
  rwa [readDec_padZeros, readDec_padZeros] at this

/-- The rendered string of a number is never empty. -/
theorem natStr_data_length_pos (n : Nat) : 0 < (natStr n).data.length := by
  show 0 < (decCharsAux (n + 1) n).length
  by_cases hn : n < 10
  · simp [decCharsAux, hn]
  · simp [decCharsAux, hn]

/-- Length of a candidate name. -/
theorem candName_length (base ext : String) (k : Nat) :
    (candName base ext k).length =
      (if k = 0 then base.length + ext.length
       else base.length + 1 + (padZeros 3 k).length + ext.length) := by
  by_cases hk : k = 0
  · simp [candName, hk, String.length_append]
  · have h1 : ("_" : String).length = 1 := rfl
    simp [candName, hk, String.length_append, h1]

/-- Collision-loop candidates are pairwise distinct names. -/
theorem candName_inj (base ext : String) : Function.Injective (candName base ext) := by
  intro j k h
  have hpj : 0 < (padZeros 3 j).length := by
    have := natStr_data_length_pos j
    show 0 < (padZeros 3 j).data.length
    simp only [padZeros, List.length_append, List.length_replicate]
    omega
  have hpk : 0 < (padZeros 3 k).length := by
    have := natStr_data_length_pos k
    show 0 < (padZeros 3 k).data.length
    simp only [padZeros, List.length_append, List.length_replicate]
    omega
  have hlen := congrArg String.length h
  rw [candName_length, candName_length] at hlen
  rcases Nat.eq_zero_or_pos j with rfl | hj <;> rcases Nat.eq_zero_or_pos k with rfl | hk
  · rfl
  · rw [if_pos rfl, if_neg (Nat.pos_iff_ne_zero.mp hk)] at hlen
    omega
  · rw [if_neg (Nat.pos_iff_ne_zero.mp hj), if_pos rfl] at hlen
    omega
  · have hj0 := Nat.pos_iff_ne_zero.mp hj
    have hk0 := Nat.pos_iff_ne_zero.mp hk
    have hdata := congrArg String.data h
    simp only [candName, if_neg hj0, if_neg hk0, String.data_append] at hdata
    have h2 := (List.append_inj' hdata rfl).1
    have h3 := List.append_cancel_left h2
    exact padZeros_data_inj 3 j k h3

/-- Full candidate paths inside a directory are pairwise distinct. -/
theorem candPath_inj (dir base ext : String) :
    Function.Injective (fun k => dir ++ "/" ++ candName base ext k) := by
  intro j k h
  simp only at h
  have hdata := congrArg String.data h
  simp only [String.data_append] at hdata
  have h2 := List.append_cancel_left hdata
  exact candName_inj base ext (congrArg String.mk h2)

/-- Lookup after a `dict` assignment. -/
theorem assocGet_assocSet {α β : Type} [DecidableEq α] (l : List (α × β)) (k p : α) (v : β) :
    assocGet (assocSet l k v) p = if p = k then some v else assocGet l p := by
  induction l with
  | nil =>
    by_cases h : p = k
    · simp [assocSet, assocGet, h]
    · have hk : ¬k = p := fun e => h e.symm
      simp [assocSet, assocGet, h, hk]
  | cons e rest ih =>
    obtain ⟨q, w⟩ := e
    by_cases hq : q = k
    · subst hq
      by_cases hp : p = q
      · subst hp
        simp [assocSet, assocGet]
      · have hqp : ¬q = p := fun e => hp e.symm
        simp [assocSet, assocGet, hp, hqp]
    · by_cases hp : q = p
      · subst hp
        have hqk : ¬q = k := hq
        simp [assocSet, assocGet, hq, hqk]
      · simp [assocSet, assocGet, hq, hp, ih]

/-- Existence against the modelled tree after a write. -/
theorem fsHas_assocSet (l : List (String × String)) (k p v : String) :
    fsHas (assocSet l k v) p = (p = k || fsHas l p) := by
  unfold fsHas
  rw [assocGet_assocSet]
  by_cases h : p = k <;> simp [h]

/-- A present key occurs among the stored keys. -/
theorem fsHas_mem_keys (l : List (String × String)) (p : String)
    (h : fsHas l p = true) : p ∈ l.map Prod.fst := by
  induction l with
  | nil => simp [fsHas, assocGet] at h
  | cons e rest ih =>
    obtain ⟨q, w⟩ := e
    by_cases hq : q = p
    · simp [hq]
    · simp only [fsHas, assocGet, hq, if_false] at h
      exact List.mem_cons_of_mem _ (ih h)

/-- If `m` pairwise-distinct paths are all present, the tree has at
least `m` entries. -/
theorem busy_le_length (fs : List (String × String)) (g : Nat → String)
    (hinj : Function.Injective g) (m : Nat)
    (h : ∀ i < m, fsHas fs (g i) = true) : m ≤ fs.length := by
  classical
  have hnodup : ((List.range m).map g).Nodup :=
    (List.nodup_range m).map hinj
  have hsub : (List.range m).map g ⊆ fs.map Prod.fst := by
    intro p hp
    rcases List.mem_map.mp hp with ⟨i, hi, rfl⟩
    exact fsHas_mem_keys fs (g i) (h i (List.mem_range.mp hi))
  have h1 : ((List.range m).map g).toFinset.card = m := by
    rw [List.toFinset_card_of_nodup hnodup, List.length_map, List.length_range]
  have h2 : ((List.range m).map g).toFinset ⊆ (fs.map Prod.fst).toFinset := by
    intro p hp
    exact List.mem_toFinset.mpr (hsub (List.mem_toFinset.mp hp))
  calc m = ((List.range m).map g).toFinset.card := h1.symm
    _ ≤ (fs.map Prod.fst).toFinset.card := Finset.card_le_card h2
    _ ≤ (fs.map Prod.fst).length := (fs.map Prod.fst).toFinset_card_le
    _ = fs.length := List.length_map fs Prod.fst

/-- Some candidate with index at most the tree size is free. -/
theorem exists_free_cand (fs : List (String × String)) (dir base ext : String) :
    ∃ k, k ≤ fs.length ∧ fsHas fs (dir ++ "/" ++ candName base ext k) = false := by
  by_contra hcon
  push_neg at hcon
  have hall : ∀ i < fs.length + 1, fsHas fs (dir ++ "/" ++ candName base ext i) = true := by
    intro i hi
    have := hcon i (by omega)
    exact Bool.not_eq_false _ |>.mp this
  have := busy_le_length fs (fun k => dir ++ "/" ++ candName base ext k)
    (candPath_inj dir base ext) (fs.length + 1) hall
  omega

/-- The collision loop returns the first free candidate when one exists
within its fuel. -/
theorem collisionLoop_eq (fs : List (String × String)) (dir base ext : String) :
    ∀ fuel j start, j < fuel →
      fsHas fs (dir ++ "/" ++ candName base ext (start + j)) = false →
      (∀ i < j, fsHas fs (dir ++ "/" ++ candName base ext (start + i)) = true) →
      collisionLoop fs dir base ext fuel start = candName base ext (start + j) := by
  intro fuel
  induction fuel with
  | zero => intro j start hj; omega
  | succ fuel ih =>
    intro j start hj hfree hbusy
    rcases Nat.eq_zero_or_pos j with rfl | hjpos
    · have h0 : fsHas fs (dir ++ "/" ++ candName base ext start) = false := by
        simpa using hfree
      simp [collisionLoop, h0]
    · have hb0 : fsHas fs (dir ++ "/" ++ candName base ext start) = true := by
        simpa using hbusy 0 hjpos
      rw [show start + j = (start + 1) + (j - 1) by omega] at hfree
      have := ih (j - 1) (start + 1) (by omega) hfree (by
        intro i hi
        have := hbusy (i + 1) (by omega)
        rw [show start + (i + 1) = start + 1 + i by omega] at this
        exact this)
      simp only [collisionLoop, hb0, if_true]
      rw [this]
      congr 1
      omega

/-- Contract of `newFilename` (lines 422-430): the assigned name is the
first candidate — plain base name, then `_001`, `_002`, … — that does
not already exist in the destination directory; in particular it never
names an existing file. -/
theorem newFilename_spec (fs : List (String × String)) (dir base ext : String) :
    ∃ k, newFilename fs dir base ext = candName base ext k ∧
      fsHas fs (dir ++ "/" ++ candName base ext k) = false ∧
      ∀ i < k, fsHas fs (dir ++ "/" ++ candName base ext i) = true := by
  classical
  have hex : ∃ k, fsHas fs (dir ++ "/" ++ candName base ext k) = false := by
    rcases exists_free_cand fs dir base ext with ⟨k, _, hk⟩
    exact ⟨k, hk⟩
  set k0 := Nat.find hex with hk0
  have hfree : fsHas fs (dir ++ "/" ++ candName base ext k0) = false := Nat.find_spec hex
  have hbusy : ∀ i < k0, fsHas fs (dir ++ "/" ++ candName base ext i) = true := by
    intro i hi
    have := Nat.find_min hex hi
    exact Bool.not_eq_false _ |>.mp this
  refine ⟨k0, ?_, hfree, hbusy⟩
  have hk0le : k0 ≤ fs.length := by
    rcases exists_free_cand fs dir base ext with ⟨k, hkle, hk⟩
    exact le_trans (Nat.find_min' hex hk) hkle
  have := collisionLoop_eq fs dir base ext (fs.length + 1) k0 0 (by omega)
    (by simpa using hfree) (by simpa using hbusy)
  simpa [newFilename] using this

/-- The assignment sequence for same-base files, with the directory
content threaded: starting from a directory where candidates below
`start` exist and candidates `start … start+n-1` are free, the `n`
files receive exactly candidates `start`, `start+1`, …. -/
theorem assignSeq_eq (dir base ext : String) :
    ∀ (n start : Nat) (fs : List (String × String)),
    (∀ k, start ≤ k → k < start + n →
      fsHas fs (dir ++ "/" ++ candName base ext k) = false) →
    (∀ i < start, fsHas fs (dir ++ "/" ++ candName base ext i) = true) →
    assignSeq fs dir base ext n =
      (List.range n).map (fun i => candName base ext (start + i)) := by
  intro n
  induction n with
  | zero => intro start fs _ _; simp [assignSeq]
  | succ n ih =>
    intro start fs hfree hbusy
    have hstartle : start ≤ fs.length :=
      busy_le_length fs _ (candPath_inj dir base ext) start hbusy
    have hnew : newFilename fs dir base ext = candName base ext start := by
      have := collisionLoop_eq fs dir base ext (fs.length + 1) start 0 (by omega)
        (by simpa using hfree start (le_refl start) (by omega))
        (by simpa using hbusy)
      simpa [newFilename] using this
    have hfree2 : ∀ k, start + 1 ≤ k → k < start + 1 + n →
        fsHas (assocSet fs (dir ++ "/" ++ candName base ext start) "")
          (dir ++ "/" ++ candName base ext k) = false := by
      intro k hk1 hk2
      rw [fsHas_assocSet]
      have hne : ¬(dir ++ "/" ++ candName base ext k =
          dir ++ "/" ++ candName base ext start) := by
        intro he
        have := candPath_inj dir base ext he
        omega
      simp only [hne, decide_False, Bool.false_or]
      exact hfree k (by omega) (by omega)
    have hbusy2 : ∀ i < start + 1,
        fsHas (assocSet fs (dir ++ "/" ++ candName base ext start) "")
          (dir ++ "/" ++ candName base ext i) = true := by
      intro i hi
      rw [fsHas_assocSet]
      rcases Nat.lt_succ_iff_lt_or_eq.mp hi with h | rfl
      · simp [hbusy i h]
      · simp
    simp only [assignSeq, hnew]
    rw [ih (start + 1) _ hfree2 hbusy2, List.range_succ_eq_map]
    simp only [List.map_cons, Nat.add_zero, List.map_map]
    congr 1
    have hfun : ((fun i => candName base ext (start + 1 + i)) : Nat → String) =
        (fun i => candName base ext (start + i)) ∘ Nat.succ := by
      funext i
      simp only [Function.comp]
      congr 1
      omega
    rw [hfun]

/-- C7: inside a destination year directory, the collision loop assigns
the first free candidate name — plain base name first, then a
zero-padded 3-digit counter `_001`, `_002`, … — a counter being
appended only when every earlier candidate already exists; an assigned
name never coincides with an existing file (no overwrite); and a
sequence of files resolving to the same base name in walk order, into a
directory initially free of the candidates, receives exactly base,
base_001, base_002, …. -/
theorem c7_collision_names (fs : List (String × String)) (dir base ext : String) (n : Nat)
    (hfree : ∀ k < n, fsHas fs (dir ++ "/" ++ candName base ext k) = false) :
    (∃ k, newFilename fs dir base ext = candName base ext k ∧
      fsHas fs (dir ++ "/" ++ candName base ext k) = false ∧
      ∀ i < k, fsHas fs (dir ++ "/" ++ candName base ext i) = true) ∧
    assignSeq fs dir base ext n = (List.range n).map (candName base ext) := by
  refine ⟨newFilename_spec fs dir base ext, ?_⟩
  have h := assignSeq_eq dir base ext n 0 fs
    (by intro k _ hk2; exact hfree k (by omega)) (by intro i hi; omega)
  simpa using h

/-- C7 (witness): three files with the identical resolved second in an
empty year bucket receive base, base_001, base_002. -/
theorem c7_witness :
    ((∃ k, newFilename [] "2023" "2023-06-15_12-00-00" ".jpg" =
        candName "2023-06-15_12-00-00" ".jpg" k ∧
      fsHas [] ("2023" ++ "/" ++ candName "2023-06-15_12-00-00" ".jpg" k) = false ∧
      ∀ i < k, fsHas [] ("2023" ++ "/" ++ candName "2023-06-15_12-00-00" ".jpg" i) = true) ∧
    assignSeq [] "2023" "2023-06-15_12-00-00" ".jpg" 3 =
      (List.range 3).map (candName "2023-06-15_12-00-00" ".jpg")) ∧
    assignSeq [] "2023" "2023-06-15_12-00-00" ".jpg" 3 =
      ["2023-06-15_12-00-00.jpg", "2023-06-15_12-00-00_001.jpg",
        "2023-06-15_12-00-00_002.jpg"] := by
  refine ⟨c7_collision_names [] "2023" "2023-06-15_12-00-00" ".jpg" 3
    (by intro k _; rfl), by decide⟩

/-- Processing a split walk: the prefix runs first; its failure aborts
the whole run. -/
theorem processAll_append (dtToTs : PyDateTime → Int) (fromTs : Int → Option PyDateTime)
    (cfg : RunConfig) : ∀ (xs ys : List FileRec) (st : PState),
    processAll dtToTs fromTs cfg st (xs ++ ys) =
      match processAll dtToTs fromTs cfg st xs with
      | .error e => .error e
      | .ok s => processAll dtToTs fromTs cfg s ys := by
  intro xs
  induction xs with
  | nil => intro ys st; simp [processAll]
  | cons x rest ih =>
    intro ys st
    simp only [List.cons_append, processAll]
    rcases h : processOne dtToTs fromTs cfg st x with e | s
    · rfl
    · exact ih ys s

/-- `exifWriteFails` (and the recorded return values) are invisible to
the rest of one loop iteration: states agreeing outside `exifReturns`
evolve to states agreeing outside `exifReturns`, for any values of the
write-failure flag. -/
theorem processOne_erase (dtToTs : PyDateTime → Int) (fromTs : Int → Option PyDateTime)
    (cfg : RunConfig) (st1 st2 : PState) (f : FileRec) (w1 w2 : Bool)
    (hst : eraseExifReturns st1 = eraseExifReturns st2) :
    (processOne dtToTs fromTs cfg st1 { f with exifWriteFails := w1 }).map eraseExifReturns =
    (processOne dtToTs fromTs cfg st2 { f with exifWriteFails := w2 }).map eraseExifReturns := by
  obtain ⟨stats1, seen1, log1, fs1, er1⟩ := st1
  obtain ⟨stats2, seen2, log2, fs2, er2⟩ := st2
  obtain ⟨nm, bt, sc, ex, mt, fm, w⟩ := f
  simp only [eraseExifReturns, PState.mk.injEq, and_true] at hst
  obtain ⟨h1, h2, h3, h4⟩ := hst
  subst h1; subst h2; subst h3; subst h4
  have hres : resolveFile dtToTs cfg.use_mtime_fallback ⟨nm, bt, sc, ex, mt, fm, w1⟩ =
      resolveFile dtToTs cfg.use_mtime_fallback ⟨nm, bt, sc, ex, mt, fm, w2⟩ := rfl
  have hkey : dupKey ⟨nm, bt, sc, ex, mt, fm, w1⟩ = dupKey ⟨nm, bt, sc, ex, mt, fm, w2⟩ := rfl
  unfold processOne
  dsimp only
  rw [hres, hkey]
  rcases hr : resolveFile dtToTs cfg.use_mtime_fallback ⟨nm, bt, sc, ex, mt, fm, w2⟩ with e | r
  · by_cases hph : fileExt nm ∈ photoExtensions <;>
      by_cases hdup : (cfg.remove_duplicates ∧
        (assocGet seen1 (dupKey ⟨nm, bt, sc, ex, mt, fm, w2⟩)).isSome) <;>
      simp [hph, hdup, eraseExifReturns, Except.map]
  · rcases r with ⟨ts, cls, wa⟩
    rcases ts with _ | t
    · by_cases hph : fileExt nm ∈ photoExtensions <;>
        by_cases hdup : (cfg.remove_duplicates ∧
          (assocGet seen1 (dupKey ⟨nm, bt, sc, ex, mt, fm, w2⟩)).isSome) <;>
        cases hsk : cfg.skip_no_metadata <;>
        simp [hph, hdup, hsk, eraseExifReturns, Except.map]
    · rcases hft : fromTs t with _ | dt <;>
        by_cases hph : fileExt nm ∈ photoExtensions <;>
        by_cases hdup : (cfg.remove_duplicates ∧
          (assocGet seen1 (dupKey ⟨nm, bt, sc, ex, mt, fm, w2⟩)).isSome) <;>
        by_cases hje : (fileExt nm = ".jpg" ∨ fileExt nm = ".jpeg") <;>
        rcases cls with _ | c <;>
        simp [hph, hdup, hje, eraseExifReturns, Except.map, bumpClassification, hft, hr] <;>
        (try cases c) <;>
        simp [bumpClassification, eraseExifReturns]

/-- Run-level version of `processOne_erase`. -/
theorem processAll_erase (dtToTs : PyDateTime → Int) (fromTs : Int → Option PyDateTime)
    (cfg : RunConfig) : ∀ (files : List FileRec) (st1 st2 : PState),
    eraseExifReturns st1 = eraseExifReturns st2 →
    (processAll dtToTs fromTs cfg st1 files).map eraseExifReturns =
    (processAll dtToTs fromTs cfg st2 files).map eraseExifReturns := by
  intro files
  induction files with
  | nil =>
    intro st1 st2 h
    simpa [processAll, Except.map] using h
  | cons f rest ih =>
    intro st1 st2 h
    have hstep : (processOne dtToTs fromTs cfg st1 f).map eraseExifReturns =
        (processOne dtToTs fromTs cfg st2 f).map eraseExifReturns :=
      processOne_erase dtToTs fromTs cfg st1 st2 f f.exifWriteFails f.exifWriteFails h
    simp only [processAll]
    rcases h1 : processOne dtToTs fromTs cfg st1 f with e1 | s1 <;>
      rcases h2 : processOne dtToTs fromTs cfg st2 f with e2 | s2 <;>
      rw [h1, h2] at hstep <;> simp [Except.map] at hstep
    · rw [hstep]
    · exact ih s1 s2 hstep

/-- C9 (counterexample): the run statistics are identical whether or
not the EXIF write of a `.jpg` output fails — the failure is not
counted anywhere in the statistics (there is no error counter; the
return value of `set_exif_datetime` is discarded at line 435). -/
theorem c9_counterexample :
    (runPipeline (fun _ => 5) sampleFromTs ⟨false, false, false⟩ [c9SampleFile true]).map
        PState.stats =
      (runPipeline (fun _ => 5) sampleFromTs ⟨false, false, false⟩ [c9SampleFile false]).map
        PState.stats ∧
    (runPipeline (fun _ => 5) sampleFromTs ⟨false, false, false⟩ [c9SampleFile true]).map
        PState.stats = .ok ⟨1, 1, 0, 0, 0, 0⟩ := by
  refine ⟨by decide, by decide⟩

/-- C9 (amended): a failing EXIF rewrite is non-fatal — inside
`set_exif_datetime` the filesystem-timestamp update is still attempted
and `False` is returned — and the run continues identically: outside
the (discarded) return values, a run in which one file's EXIF write
fails is indistinguishable from the run in which it succeeds, so the
failure is not counted as an error in the run's statistics. -/
theorem c9_nonfatal_exif_write_failure :
    (∀ ctx : ExifWriteCtx, ctx.writeFails = true →
      (set_exif_datetime ctx).fsUtimeAttempted = true ∧
        (set_exif_datetime ctx).returned = false) ∧
    (∀ (dtToTs : PyDateTime → Int) (fromTs : Int → Option PyDateTime) (cfg : RunConfig)
      (pre post : List FileRec) (f : FileRec),
      (runPipeline dtToTs fromTs cfg (pre ++ { f with exifWriteFails := true } :: post)).map
          eraseExifReturns =
      (runPipeline dtToTs fromTs cfg (pre ++ { f with exifWriteFails := false } :: post)).map
          eraseExifReturns) := by
  constructor
  · intro ctx h
    simp [set_exif_datetime, h]
  · intro dtToTs fromTs cfg pre post f
    unfold runPipeline
    rw [processAll_append, processAll_append]
    rcases hpre : processAll dtToTs fromTs cfg initPState pre with e | s
    · rfl
    · simp only [processAll]
      have hstep := processOne_erase dtToTs fromTs cfg s s f true false rfl
      rcases h1 : processOne dtToTs fromTs cfg s { f with exifWriteFails := true } with e1 | s1 <;>
        rcases h2 : processOne dtToTs fromTs cfg s { f with exifWriteFails := false } with e2 | s2 <;>
        rw [h1, h2] at hstep <;> simp [Except.map] at hstep
      · rw [hstep]
      · exact processAll_erase dtToTs fromTs cfg post s1 s2 hstep

/-- C9 (witness): the amended theorem at a concrete failing `.jpg`. -/
theorem c9_witness :
    ((set_exif_datetime ⟨true, true⟩).fsUtimeAttempted = true ∧
      (set_exif_datetime ⟨true, true⟩).returned = false) ∧
    (runPipeline (fun _ => 5) sampleFromTs ⟨false, false, false⟩
        [{ c9SampleFile false with exifWriteFails := true }]).map eraseExifReturns =
      (runPipeline (fun _ => 5) sampleFromTs ⟨false, false, false⟩
        [{ c9SampleFile false with exifWriteFails := false }]).map eraseExifReturns :=
  ⟨c9_nonfatal_exif_write_failure.1 ⟨true, true⟩ rfl,
    c9_nonfatal_exif_write_failure.2 (fun _ => 5) sampleFromTs ⟨false, false, false⟩
      [] [] (c9SampleFile false)⟩

/-- A file without a recognized media extension leaves the state
untouched. -/
theorem processOne_nonphoto (dtToTs : PyDateTime → Int) (fromTs : Int → Option PyDateTime)
    (cfg : RunConfig) (st : PState) (f : FileRec)
    (h : ¬ fileExt f.name ∈ photoExtensions) :
    processOne dtToTs fromTs cfg st f = .ok st := by
  simp [processOne, h]

/-- The duplicate gate (lines 339-342): with duplicate removal on, a
media file whose key was already seen is counted and logged — citing
the stored first-seen name — and nothing else happens: the output tree,
the seen table and all other statistics are untouched. -/
theorem processOne_dup (dtToTs : PyDateTime → Int) (fromTs : Int → Option PyDateTime)
    (umf snm : Bool) (st : PState) (f : FileRec)
    (hphoto : fileExt f.name ∈ photoExtensions)
    (hsome : (assocGet st.seen_hashes (dupKey f)).isSome = true) :
    processOne dtToTs fromTs ⟨umf, snm, true⟩ st f =
      .ok { st with
        stats := { st.stats with
          total_files := st.stats.total_files + 1,
          duplicates_removed := st.stats.duplicates_removed + 1 },
        duplicate_log := st.duplicate_log ++
          [f.name ++ " -> duplicate of " ++ (assocGet st.seen_hashes (dupKey f)).getD ""] } := by
  simp [processOne, hphoto, hsome]

/-- A media file that is not a stored duplicate records its key and
name in `seen_hashes` and never touches the duplicate counter or the
duplicate log, whatever its resolution outcome. -/
theorem processOne_nondup (dtToTs : PyDateTime → Int) (fromTs : Int → Option PyDateTime)
    (cfg : RunConfig) (st st2 : PState) (f : FileRec)
    (hphoto : fileExt f.name ∈ photoExtensions)
    (hnone : ¬ (cfg.remove_duplicates ∧ (assocGet st.seen_hashes (dupKey f)).isSome)) :
    processOne dtToTs fromTs cfg st f = .ok st2 →
    st2.duplicate_log = st.duplicate_log ∧
    st2.stats.duplicates_removed = st.stats.duplicates_removed ∧
    st2.seen_hashes = assocSet st.seen_hashes (dupKey f) f.name := by
  intro h
  unfold processOne at h
  have hph2 : photoExtensions.contains (fileExt f.name) = true := by simpa using hphoto
  simp only [hph2, if_true] at h
  rw [if_neg hnone] at h
  rcases hr : resolveFile dtToTs cfg.use_mtime_fallback f with e | r <;> simp only [hr] at h
  · cases h
  · rcases r with ⟨ts, cls, wa⟩
    rcases ts with _ | t <;> dsimp only at h
    · split at h <;> cases h <;> simp
    · rcases hft : fromTs t with _ | dt <;> simp only [hft] at h
      · cases h
      · split at h <;> rcases cls with _ | c <;> (try cases c) <;> cases h <;>
          simp [bumpClassification]

/-- Appending one file to the processed prefix extends the first-keeper
map exactly when the file is a media file carrying a not-yet-seen key. -/
theorem firstKeeper_append (pre : List FileRec) (f : FileRec) (k : Nat × String) :
    firstKeeper (pre ++ [f]) k =
      match firstKeeper pre k with
      | some n => some n
      | none =>
        if fileExt f.name ∈ photoExtensions ∧ dupKey f = k then some f.name else none := by
  induction pre with
  | nil =>
    simp only [List.nil_append, firstKeeper, List.find?]
    by_cases hp : fileExt f.name ∈ photoExtensions ∧ dupKey f = k
    · obtain ⟨h1, h2⟩ := hp
      simp [h1, h2]
    · have hb : (decide (fileExt f.name ∈ photoExtensions) && dupKey f == k) = false := by
        by_cases h1 : fileExt f.name ∈ photoExtensions
        · have h2 : ¬ dupKey f = k := fun h2 => hp ⟨h1, h2⟩
          simp [h1, h2]
        · simp [h1]
      simp [hb, hp]
  | cons g rest ih =>
    simp only [List.cons_append, firstKeeper, List.find?] at *
    rcases hg : (photoExtensions.contains (fileExt g.name) && dupKey g == k) with _ | _
    · simpa [hg] using ih
    · simp [hg]

/-- The first-keeper map is populated exactly at the keys of earlier
media files. -/
theorem firstKeeper_isSome_iff (pre : List FileRec) (k : Nat × String) :
    (firstKeeper pre k).isSome = true ↔
      ∃ g ∈ pre, fileExt g.name ∈ photoExtensions ∧ dupKey g = k := by
  unfold firstKeeper
  constructor
  · intro h
    rcases hf : List.find?
        (fun g => photoExtensions.contains (fileExt g.name) && dupKey g == k) pre with _ | g
    · rw [hf] at h
      simp at h
    · have hmem := List.mem_of_find?_eq_some hf
      have hp := List.find?_some hf
      rcases Bool.and_eq_true_iff.mp hp with ⟨h1, h2⟩
      exact ⟨g, hmem, by simpa using h1, by simpa using h2⟩
  · rintro ⟨g, hmem, h1, h2⟩
    have hsome : (List.find?
        (fun g => photoExtensions.contains (fileExt g.name) && dupKey g == k) pre).isSome =
          true := by
      rw [List.find?_isSome]
      exact ⟨g, hmem, by simp [h1, h2]⟩
    rcases Option.isSome_iff_exists.mp hsome with ⟨g2, hg2⟩
    rw [hg2]
    rfl

/-- Splitting the specification-side duplicate log at a walk split. -/
theorem dupEntries_append : ∀ (xs : List FileRec) (p ys : List FileRec),
    dupEntries p (xs ++ ys) = dupEntries p xs ++ dupEntries (p ++ xs) ys := by
  intro xs
  induction xs with
  | nil => intro p ys; simp [dupEntries]
  | cons x xt ih =>
    intro p ys
    have hpx : p ++ x :: xt = (p ++ [x]) ++ xt := by simp
    simp only [List.cons_append, dupEntries, List.append_eq]
    by_cases hp : photoExtensions.contains (fileExt x.name) = true
    · simp only [hp, if_true]
      rw [hpx, ih (p ++ [x]) ys]
      rcases hk : firstKeeper p (dupKey x) with _ | kept <;> simp
    · simp only [if_neg hp]
      rw [hpx, ih (p ++ [x]) ys]

/-- The dictionary-driven duplicate handling of the loop implements the
declarative first-occurrence description: along any successful run with
duplicate removal on, the duplicate log is exactly the specification
log `dupEntries` and the counter is its length, while `seen_hashes`
stays the first-keeper map of the processed prefix. -/
theorem dedup_invariant (dtToTs : PyDateTime → Int) (fromTs : Int → Option PyDateTime)
    (umf snm : Bool) :
    ∀ (files processed : List FileRec) (st r : PState),
    (∀ k, assocGet st.seen_hashes k = firstKeeper processed k) →
    processAll dtToTs fromTs ⟨umf, snm, true⟩ st files = .ok r →
    r.duplicate_log = st.duplicate_log ++ dupEntries processed files ∧
    r.stats.duplicates_removed =
      st.stats.duplicates_removed + (dupEntries processed files).length ∧
    (∀ k, assocGet r.seen_hashes k = firstKeeper (processed ++ files) k) := by
  intro files
  induction files with
  | nil =>
    intro processed st r hseen h
    simp only [processAll] at h
    cases h
    simpa [dupEntries] using hseen
  | cons f rest ih =>
    intro processed st r hseen hrun
    simp only [processAll] at hrun
    by_cases hphoto : fileExt f.name ∈ photoExtensions
    · by_cases hdup : (assocGet st.seen_hashes (dupKey f)).isSome = true
      · rw [processOne_dup dtToTs fromTs umf snm st f hphoto hdup] at hrun
        dsimp only at hrun
        have hkeeper : (firstKeeper processed (dupKey f)).isSome = true := by
          rw [← hseen (dupKey f)]; exact hdup
        rcases hkn : firstKeeper processed (dupKey f) with _ | kept
        · rw [hkn] at hkeeper; cases hkeeper
        · have hseen2 : ∀ k,
              assocGet st.seen_hashes k = firstKeeper (processed ++ [f]) k := by
            intro k
            rw [firstKeeper_append, hseen k]
            rcases hfk : firstKeeper processed k with _ | n
            · by_cases hk : dupKey f = k
              · subst hk; rw [hfk] at hkn; cases hkn
              · simp [hk]
            · rfl
          have hres := ih (processed ++ [f]) _ r (by intro k; exact hseen2 k) hrun
          have hline : dupEntries processed (f :: rest) =
              (f.name ++ " -> duplicate of " ++ kept) :: dupEntries (processed ++ [f]) rest := by
            simp [dupEntries, by simpa using hphoto, hkn]
          refine ⟨?_, ?_, ?_⟩
          · rw [hres.1, hline]
            simp [hseen (dupKey f), hkn]
          · rw [hres.2.1, hline]
            simp only [List.length_cons]
            omega
          · intro k
            rw [hres.2.2 k]
            simp [List.append_assoc]
      · have hnone : ¬ ((⟨umf, snm, true⟩ : RunConfig).remove_duplicates = true ∧
            (assocGet st.seen_hashes (dupKey f)).isSome = true) := by
          intro hcon
          exact hdup hcon.2
        rcases hstep : processOne dtToTs fromTs ⟨umf, snm, true⟩ st f with e | st2
        · rw [hstep] at hrun; cases hrun
        · rw [hstep] at hrun
          have hch := processOne_nondup dtToTs fromTs ⟨umf, snm, true⟩ st st2 f hphoto hnone hstep
          have hfkeep : firstKeeper processed (dupKey f) = none := by
            rw [← hseen (dupKey f)]
            exact Option.not_isSome_iff_eq_none.mp hdup
          have hseen2 : ∀ k, assocGet st2.seen_hashes k = firstKeeper (processed ++ [f]) k := by
            intro k
            rw [hch.2.2, assocGet_assocSet, firstKeeper_append]
            by_cases hk : k = dupKey f
            · subst hk
              rw [hfkeep]
              simp [hphoto]
            · rw [if_neg hk, hseen k]
              rcases hfk : firstKeeper processed k with _ | n
              · have : ¬ dupKey f = k := fun h => hk h.symm
                simp [this]
              · rfl
          have hres := ih (processed ++ [f]) st2 r hseen2 hrun
          have hline : dupEntries processed (f :: rest) =
              dupEntries (processed ++ [f]) rest := by
            simp [dupEntries, by simpa using hphoto, hfkeep]
          refine ⟨?_, ?_, ?_⟩
          · rw [hres.1, hch.1, hline]
          · rw [hres.2.1, hch.2.1, hline]
          · intro k
            rw [hres.2.2 k]
            simp [List.append_assoc]
    · rw [processOne_nonphoto dtToTs fromTs _ st f hphoto] at hrun
      have hseen2 : ∀ k, assocGet st.seen_hashes k = firstKeeper (processed ++ [f]) k := by
        intro k
        rw [firstKeeper_append, hseen k]
        rcases hfk : firstKeeper processed k with _ | n
        · simp [hphoto]
        · rfl
      have hres := ih (processed ++ [f]) st r hseen2 hrun
      have hline : dupEntries processed (f :: rest) = dupEntries (processed ++ [f]) rest := by
        have hb : ¬ photoExtensions.contains (fileExt f.name) = true := by simpa using hphoto
        simp only [dupEntries, if_neg hb]
      refine ⟨?_, ?_, ?_⟩
      · rw [hres.1, hline]
      · rw [hres.2.1, hline]
      · intro k
        rw [hres.2.2 k]
        simp [List.append_assoc]

/-- C5: in a duplicate-removal run, a media file whose key (byte
length, content hash) equals that of an earlier media file is excluded
from the output tree — its loop iteration changes nothing but the
`total_files` count, the `duplicates_removed` count (by one) and the
log, to which the line `<name> -> duplicate of <first-seen name>` is
appended; across the whole run the log holds exactly one such line per
removed file (`dupEntries`) with the counter equal to its length, and
`duplicates_report.txt` is materialized — here with at least this one
removal — as the header line, a blank line, then the log lines. -/
theorem c5_duplicate_removal (dtToTs : PyDateTime → Int) (fromTs : Int → Option PyDateTime)
    (umf snm : Bool) (pre post : List FileRec) (f : FileRec) (r : PState)
    (hphoto : fileExt f.name ∈ photoExtensions)
    (hdupin : ∃ g ∈ pre, fileExt g.name ∈ photoExtensions ∧ dupKey g = dupKey f)
    (hrun : runPipeline dtToTs fromTs ⟨umf, snm, true⟩ (pre ++ f :: post) = .ok r) :
    (∃ s, processAll dtToTs fromTs ⟨umf, snm, true⟩ initPState pre = .ok s ∧
      processOne dtToTs fromTs ⟨umf, snm, true⟩ s f =
        .ok { s with
          stats := { s.stats with
            total_files := s.stats.total_files + 1,
            duplicates_removed := s.stats.duplicates_removed + 1 },
          duplicate_log := s.duplicate_log ++
            [f.name ++ " -> duplicate of " ++ (firstKeeper pre (dupKey f)).getD ""] }) ∧
    r.duplicate_log = dupEntries [] (pre ++ f :: post) ∧
    r.stats.duplicates_removed = (dupEntries [] (pre ++ f :: post)).length ∧
    duplicatesReport ⟨umf, snm, true⟩ r =
      some ("Duplicates removed: " ++ natStr r.stats.duplicates_removed ++ "\n\n"
        ++ String.join (r.duplicate_log.map (· ++ "\n"))) := by
  have hinit : ∀ k, assocGet initPState.seen_hashes k = firstKeeper [] k := by
    intro k; rfl
  have hall := dedup_invariant dtToTs fromTs umf snm (pre ++ f :: post) [] initPState r
    hinit hrun
  unfold runPipeline at hrun
  rw [processAll_append] at hrun
  rcases hpre : processAll dtToTs fromTs ⟨umf, snm, true⟩ initPState pre with e | s <;>
    rw [hpre] at hrun
  · cases hrun
  · have hinv := dedup_invariant dtToTs fromTs umf snm pre [] initPState s hinit hpre
    have hseenS : ∀ k, assocGet s.seen_hashes k = firstKeeper pre k := by
      intro k
      rw [hinv.2.2 k]
      simp
    have hkeysome : (assocGet s.seen_hashes (dupKey f)).isSome = true := by
      rw [hseenS]
      exact firstKeeper_isSome_iff pre (dupKey f) |>.mpr hdupin
    rcases Option.isSome_iff_exists.mp
      (firstKeeper_isSome_iff pre (dupKey f) |>.mpr hdupin) with ⟨kept, hkept⟩
    have hcountpos : 0 < (dupEntries [] (pre ++ f :: post)).length := by
      rw [show (f :: post) = [f] ++ post by rfl, ← List.append_assoc,
        dupEntries_append (pre ++ [f]) [] post]
      have hline : dupEntries [] (pre ++ [f]) =
          dupEntries [] pre ++ dupEntries pre [f] := by
        have := dupEntries_append pre [] [f]
        simpa using this
      rw [hline]
      have : dupEntries pre [f] =
          [f.name ++ " -> duplicate of " ++ kept] := by
        simp [dupEntries, by simpa using hphoto, hkept]
      rw [this]
      simp
    refine ⟨⟨s, rfl, ?_⟩, ?_, ?_, ?_⟩
    · rw [processOne_dup dtToTs fromTs umf snm s f hphoto hkeysome, hseenS (dupKey f)]
    · simpa [initPState] using hall.1
    · simpa [initPState] using hall.2.1
    · have hpos : 0 < r.stats.duplicates_removed := by
        have := hall.2.1
        simp at this
        omega
      unfold duplicatesReport
      rw [if_pos ⟨rfl, hpos⟩]

/-- C5 (witness): a two-file run with identical contents — the second
file is removed, logged as a duplicate of the first, and the report is
written. -/
theorem c5_witness :
    runPipeline (fun _ => 5) sampleFromTs ⟨false, false, true⟩ [c5KeptFile, c5DupFile] =
      .ok c5FinalState ∧
    c5FinalState.duplicate_log = ["f.jpg -> duplicate of g.jpg"] ∧
    c5FinalState.stats.duplicates_removed = 1 ∧
    duplicatesReport ⟨false, false, true⟩ c5FinalState =
      some "Duplicates removed: 1\n\nf.jpg -> duplicate of g.jpg\n" := by
  have h := c5_duplicate_removal (fun _ => 5) sampleFromTs false false
    [c5KeptFile] [] c5DupFile c5FinalState (by decide)
    ⟨c5KeptFile, by decide, by decide, by decide⟩ (by decide)
  refine ⟨by decide, ?_, ?_, ?_⟩
  · rw [h.2.1]; decide
  · rw [h.2.2.1]; decide
  · rw [h.2.2.2]; decide

/-- The resolution chain never assigns `renamed_only` together with a
timestamp: the `classification` variable holds `renamed_only` only on
the no-timestamp path of line 395. -/
theorem resolveFile_not_renamed (dtToTs : PyDateTime → Int) (umf : Bool) (f : FileRec)
    (rez : Resolution) (t : Int) (h : resolveFile dtToTs umf f = .ok rez)
    (hts : rez.timestamp = some t) :
    rez.classification ≠ some Classification.renamed_only := by
  intro hcon
  have h2 : resolveOutcome dtToTs umf false f = .ok (outcomeOfResolution false rez) := by
    unfold resolveOutcome
    rw [h]
    rfl
  rw [resolve_eq_chainSpec] at h2
  have h3 : (outcomeOfResolution false rez).classification = some Classification.renamed_only := by
    simp [outcomeOfResolution, hts, hcon]
  have h4 : (outcomeOfResolution false rez).timestamp = some t := by
    simp [outcomeOfResolution, hts]
  unfold chainSpecAmended at h2
  rcases h1 : f.sidecar.bind parse_google_takeout_json with _ | t1 <;> rw [h1] at h2
  case' some =>
    simp only [Option.some.injEq, Except.ok.injEq] at h2
    rw [← h2] at h3
    by_cases h0 : t1 = 0 <;> simp [h0] at h3
  case' none =>
    rcases he : f.exifTs with _ | t2 <;> rw [he] at h2
    case' some =>
      simp only [Except.ok.injEq] at h2
      rw [← h2] at h3
      simp at h3
    case' none =>
      rcases hx : ((extract_xmp_metadata dtToTs f.bytes).bind XmpResult.timestamp).filter
          (· != 0) with _ | t3 <;> rw [hx] at h2
      case' some =>
        simp only [Except.ok.injEq] at h2
        rw [← h2] at h3
        simp at h3
      case' none =>
        rcases hg : get_timestamp_from_filename dtToTs f.name with e | g <;> rw [hg] at h2
        · cases h2
        · rcases g with ⟨(_ | t4), wa⟩
          · simp only at h2
            cases humf : umf <;> rw [humf] at h2
            · simp only [Bool.false_eq_true, if_false, Except.ok.injEq] at h2
              rw [← h2] at h4
              simp at h4
            · rcases hm : f.mtime with _ | t5 <;> rw [hm] at h2 <;>
                simp only [if_true] at h2 <;> simp only [Except.ok.injEq] at h2
              · rw [← h2] at h4
                simp at h4
              · rw [← h2] at h3
                simp at h3
          · simp only at h2
            simp only [Except.ok.injEq] at h2
            rw [← h2] at h3
            by_cases h0 : t4 = 0 <;> simp [h0] at h3

/-- The decimal rendering starts with a digit character. -/
theorem decCharsAux_head : ∀ fuel n, n ≤ fuel → 1 ≤ fuel →
    ∃ d, d < 10 ∧ (decCharsAux fuel n).head? = some (digitChar d) := by
  intro fuel
  induction fuel with
  | zero => intro n h h1; omega
  | succ fuel ih =>
    intro n h _
    by_cases hn : n < 10
    · exact ⟨n, hn, by simp [decCharsAux, hn]⟩
    · have hdiv : n / 10 ≤ fuel := by
        have : n / 10 < n := Nat.div_lt_self (by omega) (by omega)
        omega
      have hfuel1 : 1 ≤ fuel := by omega
      rcases ih (n / 10) hdiv hfuel1 with ⟨d, hd, hh⟩
      refine ⟨d, hd, ?_⟩
      simp only [decCharsAux, hn, if_false]
      rcases hl : decCharsAux fuel (n / 10) with _ | ⟨c, tl⟩
      · rw [hl] at hh; cases hh
      · rw [hl] at hh
        simpa using hh

/-- A year-bucket path (starting with the decimal year) is never a
`Needs_Review/` path. -/
theorem yearPath_ne_review (y : Nat) (a b : String) :
    natStr y ++ "/" ++ a ≠ "Needs_Review/" ++ b := by
  intro h
  rcases decCharsAux_head (y + 1) y (Nat.le_succ y) (by omega) with ⟨d, hd, hh⟩
  have hdata := congrArg String.data h
  simp only [String.data_append] at hdata
  rcases hl : (natStr y).data with _ | ⟨c, tl⟩
  · rw [show (natStr y).data = decCharsAux (y + 1) y from rfl] at hl
    rw [hl] at hh; cases hh
  · rw [show (natStr y).data = decCharsAux (y + 1) y from rfl] at hl
    rw [hl] at hh
    simp only [List.head?] at hh
    rw [show (natStr y).data = decCharsAux (y + 1) y from rfl, hl] at hdata
    have hhead := congrArg List.head? hdata
    simp only [List.cons_append, List.head?] at hhead
    rw [Option.some.injEq] at hh hhead
    rw [hh] at hhead
    have : (digitChar d).toNat = ('N' : Char).toNat := by rw [hhead]
    interval_cases d <;> simp_all [digitChar]

/-- Two `Needs_Review/` paths coincide only for the same file name. -/
theorem review_path_inj (a b : String) (h : ("Needs_Review/" ++ a : String) = "Needs_Review/" ++ b) :
    a = b := by
  have hdata := congrArg String.data h
  simp only [String.data_append] at hdata
  have h2 := List.append_cancel_left hdata
  exact congrArg String.mk h2

/-- The `Needs_Review` branch for one file (lines 394-401), with
duplicate removal off and the skip policy off. -/
theorem processOne_review (dtToTs : PyDateTime → Int) (fromTs : Int → Option PyDateTime)
    (umf : Bool) (st : PState) (f : FileRec) (rez : Resolution)
    (hphoto : fileExt f.name ∈ photoExtensions)
    (hres : resolveFile dtToTs umf f = .ok rez)
    (hts : rez.timestamp = none) :
    processOne dtToTs fromTs ⟨umf, false, false⟩ st f =
      .ok { st with
        stats := { st.stats with
          total_files := st.stats.total_files + 1,
          renamed_only := st.stats.renamed_only + 1 },
        seen_hashes := assocSet st.seen_hashes (dupKey f) f.name,
        fs := assocSet st.fs ("Needs_Review/" ++ f.name) f.bytes } := by
  unfold processOne
  simp [hphoto, hres, hts]

/-- The year-bucket branch for one file: the `renamed_only` counter is
untouched (the chain never yields that classification with a
timestamp), the key is recorded, and the single tree write is at a
year path. -/
theorem processOne_resolved (dtToTs : PyDateTime → Int) (fromTs : Int → Option PyDateTime)
    (umf snm : Bool) (st st2 : PState) (f : FileRec) (rez : Resolution) (t : Int)
    (hphoto : fileExt f.name ∈ photoExtensions)
    (hres : resolveFile dtToTs umf f = .ok rez)
    (hts : rez.timestamp = some t)
    (h : processOne dtToTs fromTs ⟨umf, snm, false⟩ st f = .ok st2) :
    st2.stats.renamed_only = st.stats.renamed_only ∧
    ∃ y rest2, st2.fs = assocSet st.fs (natStr y ++ "/" ++ rest2) f.bytes := by
  have hnr := resolveFile_not_renamed dtToTs umf f rez t hres hts
  unfold processOne at h
  have hph2 : photoExtensions.contains (fileExt f.name) = true := by simpa using hphoto
  simp only [hph2, if_true] at h
  rw [if_neg (by simp :
    ¬((⟨umf, snm, false⟩ : RunConfig).remove_duplicates = true ∧
      (assocGet st.seen_hashes (dupKey f)).isSome = true))] at h
  simp only [hres] at h
  simp only [hts] at h
  rcases hft : fromTs t with _ | dt <;> simp only [hft] at h
  · cases h
  · split at h <;> rcases hcls : rez.classification with _ | c <;> (try cases c) <;>
      rw [hcls] at h <;> cases h <;>
      first
        | exact absurd hcls hnr
        | exact ⟨by simp [bumpClassification], dt.year, _, rfl⟩

/-- Counting a classification never changes the output tree. -/
theorem bump_fs (st : PState) (c : Option Classification) :
    (bumpClassification st c).fs = st.fs := by
  rcases c with _ | c
  · rfl
  · cases c <;> rfl

/-- One loop iteration writes at most one path into the output tree. -/
theorem processOne_fs_shape (dtToTs : PyDateTime → Int) (fromTs : Int → Option PyDateTime)
    (cfg : RunConfig) (st st2 : PState) (f : FileRec)
    (h : processOne dtToTs fromTs cfg st f = .ok st2) :
    st2.fs = st.fs ∨ ∃ p v, st2.fs = assocSet st.fs p v := by
  unfold processOne at h
  dsimp only at h
  split at h
  · split at h
    · cases h
      exact Or.inl rfl
    · split at h
      · cases h
      · split at h
        · split at h
          · cases h
            exact Or.inl rfl
          · cases h
            exact Or.inr ⟨_, _, rfl⟩
        · split at h
          · cases h
          · cases h
            right
            rw [bump_fs]
            split <;> exact ⟨_, _, rfl⟩
  · cases h
    exact Or.inl rfl

/-- Keys after a dictionary write: unchanged when the key was present,
the key appended otherwise. -/
theorem assocSet_keys {α β : Type} [DecidableEq α] (l : List (α × β)) (k : α) (v : β) :
    (assocSet l k v).map Prod.fst =
      if k ∈ l.map Prod.fst then l.map Prod.fst else l.map Prod.fst ++ [k] := by
  induction l with
  | nil => simp [assocSet]
  | cons p rest ih =>
    rcases p with ⟨q, w⟩
    by_cases hq : q = k
    · subst hq
      simp [assocSet]
    · simp only [assocSet, if_neg hq, List.map_cons, ih, List.mem_cons]
      by_cases hm : k ∈ rest.map Prod.fst
      · simp [hm, Ne.symm hq]
      · simp [hm, Ne.symm hq]

/-- A dictionary write preserves distinctness of the stored keys. -/
theorem assocSet_keys_nodup {α β : Type} [DecidableEq α] (l : List (α × β)) (k : α) (v : β)
    (h : (l.map Prod.fst).Nodup) : ((assocSet l k v).map Prod.fst).Nodup := by
  rw [assocSet_keys]
  by_cases hm : k ∈ l.map Prod.fst
  · rwa [if_pos hm]
  · rw [if_neg hm]
    simp [List.nodup_append, h, hm]

/-- The walk keeps the output-tree paths distinct: each path holds one
content, the dictionary semantics of the modelled tree. -/
theorem processAll_fs_nodup (dtToTs : PyDateTime → Int) (fromTs : Int → Option PyDateTime)
    (cfg : RunConfig) : ∀ (files : List FileRec) (st r : PState),
    processAll dtToTs fromTs cfg st files = .ok r →
    (st.fs.map Prod.fst).Nodup → (r.fs.map Prod.fst).Nodup := by
  intro files
  induction files with
  | nil =>
    intro st r h hn
    cases h
    exact hn
  | cons f rest ih =>
    intro st r h hn
    simp only [processAll] at h
    rcases hstep : processOne dtToTs fromTs cfg st f with e | st1 <;> rw [hstep] at h
    · cases h
    · rcases processOne_fs_shape dtToTs fromTs cfg st st1 f hstep with hsame | ⟨p, v, hset⟩
      · exact ih st1 r h (hsame ▸ hn)
      · exact ih st1 r h (hset ▸ assocSet_keys_nodup st.fs p v hn)

/-- The last `Needs_Review` writer of a split walk: a writer in the
suffix wins, else the prefix decides. -/
theorem lastReviewWrite_append (dtToTs : PyDateTime → Int) (umf : Bool) (nm : String) :
    ∀ (xs ys : List FileRec),
    lastReviewWrite dtToTs umf nm (xs ++ ys) =
      match lastReviewWrite dtToTs umf nm ys with
      | some y => some y
      | none => lastReviewWrite dtToTs umf nm xs := by
  intro xs ys
  induction xs with
  | nil =>
    rcases h : lastReviewWrite dtToTs umf nm ys with _ | y <;> simp [lastReviewWrite, h]
  | cons x xt ih =>
    simp only [List.cons_append, lastReviewWrite, List.append_eq]
    rw [ih]
    rcases h : lastReviewWrite dtToTs umf nm ys with _ | y <;>
      rcases h2 : lastReviewWrite dtToTs umf nm xt with _ | z <;>
      simp [lastReviewWrite, h, h2]

/-- A walk segment with no `Needs_Review/<nm>` writer contributes no
last writer. -/
theorem lastReviewWrite_none (dtToTs : PyDateTime → Int) (umf : Bool) (nm : String) :
    ∀ (l : List FileRec), (∀ x ∈ l, reviewWriterB dtToTs umf nm x = false) →
    lastReviewWrite dtToTs umf nm l = none := by
  intro l
  induction l with
  | nil => intro _; rfl
  | cons x xt ih =>
    intro h
    have hx := h x (by simp)
    have ht := ih (fun y hy => h y (List.mem_cons_of_mem _ hy))
    simp [lastReviewWrite, ht, hx]

/-- Content of `Needs_Review/<nm>` after a walk segment with the skip
policy off: the last writer of that path in the segment decides, and
with no writer the path keeps its prior content — each later copy
silently replaces the earlier one. -/
theorem review_fs_invariant (dtToTs : PyDateTime → Int) (fromTs : Int → Option PyDateTime)
    (umf : Bool) (nm : String) : ∀ (files : List FileRec) (st r : PState),
    processAll dtToTs fromTs ⟨umf, false, false⟩ st files = .ok r →
    assocGet r.fs ("Needs_Review/" ++ nm) =
      (match lastReviewWrite dtToTs umf nm files with
       | some x => some x.bytes
       | none => assocGet st.fs ("Needs_Review/" ++ nm)) := by
  intro files
  induction files with
  | nil =>
    intro st r h
    cases h
    rfl
  | cons f rest ih =>
    intro st r h
    simp only [processAll] at h
    rcases hstep : processOne dtToTs fromTs ⟨umf, false, false⟩ st f with e | st1 <;>
      rw [hstep] at h
    · cases h
    · have hIH := ih st1 r h
      simp only [lastReviewWrite]
      rcases hl : lastReviewWrite dtToTs umf nm rest with _ | y
      · rw [hl] at hIH
        have hIH2 : assocGet r.fs ("Needs_Review/" ++ nm) =
            assocGet st1.fs ("Needs_Review/" ++ nm) := by simpa using hIH
        rw [hIH2]
        by_cases hph : fileExt f.name ∈ photoExtensions
        · rcases hres : resolveFile dtToTs umf f with e | rez
          · exfalso
            unfold processOne at hstep
            simp [hph, hres] at hstep
          · rcases hts : rez.timestamp with _ | t
            · rw [processOne_review dtToTs fromTs umf st f rez hph hres hts] at hstep
              cases hstep
              have hnoTs : noTimestampB dtToTs umf f = true := by
                simp [noTimestampB, hres, Except.map, hts]
              have hc : photoExtensions.contains (fileExt f.name) = true := by
                simpa using hph
              by_cases hnm : f.name = nm
              · have hpred : reviewWriterB dtToTs umf nm f = true := by
                  unfold reviewWriterB
                  rw [hc, hnoTs, hnm]
                  simp
                rw [hpred]
                dsimp only
                rw [hnm, assocGet_assocSet]
                simp
              · have hpred : reviewWriterB dtToTs umf nm f = false := by
                  unfold reviewWriterB
                  simp [hnm]
                rw [hpred]
                dsimp only
                rw [assocGet_assocSet,
                  if_neg (fun e => hnm (review_path_inj nm f.name e).symm)]
                simp
            · obtain ⟨hren, y2, rest2, hfs⟩ :=
                processOne_resolved dtToTs fromTs umf false st st1 f rez t hph hres hts hstep
              have hpred : reviewWriterB dtToTs umf nm f = false := by
                unfold reviewWriterB noTimestampB
                simp [hres, Except.map, hts]
              rw [hpred, hfs, assocGet_assocSet,
                if_neg (fun e => yearPath_ne_review y2 rest2 nm e.symm)]
              simp
        · rw [processOne_nonphoto dtToTs fromTs ⟨umf, false, false⟩ st f hph] at hstep
          cases hstep
          have hc : photoExtensions.contains (fileExt f.name) = false := by
            simpa using hph
          have hpred : reviewWriterB dtToTs umf nm f = false := by
            unfold reviewWriterB
            rw [hc]
            simp
          rw [hpred]
          simp
      · rw [hl] at hIH
        simpa using hIH

/-- The `renamed_only` statistic counts exactly the media files of the
segment whose resolution produced no timestamp, one increment per such
input file — later same-name files included. -/
theorem review_count_invariant (dtToTs : PyDateTime → Int) (fromTs : Int → Option PyDateTime)
    (umf : Bool) : ∀ (files : List FileRec) (st r : PState),
    processAll dtToTs fromTs ⟨umf, false, false⟩ st files = .ok r →
    r.stats.renamed_only = st.stats.renamed_only +
      (files.filter
        (fun x => photoExtensions.contains (fileExt x.name) && noTimestampB dtToTs umf x)).length := by
  intro files
  induction files with
  | nil =>
    intro st r h
    cases h
    simp
  | cons f rest ih =>
    intro st r h
    simp only [processAll] at h
    rcases hstep : processOne dtToTs fromTs ⟨umf, false, false⟩ st f with e | st1 <;>
      rw [hstep] at h
    · cases h
    · have hIH := ih st1 r h
      by_cases hph : fileExt f.name ∈ photoExtensions
      · have hc : photoExtensions.contains (fileExt f.name) = true := by simpa using hph
        rcases hres : resolveFile dtToTs umf f with e | rez
        · exfalso
          unfold processOne at hstep
          simp [hph, hres] at hstep
        · rcases hts : rez.timestamp with _ | t
          · rw [processOne_review dtToTs fromTs umf st f rez hph hres hts] at hstep
            cases hstep
            have hnoTs : noTimestampB dtToTs umf f = true := by
              simp [noTimestampB, hres, Except.map, hts]
            have hpred : (photoExtensions.contains (fileExt f.name) &&
                noTimestampB dtToTs umf f) = true := by
              rw [hc, hnoTs]
              rfl
            simp only [List.filter_cons, hpred, if_true, List.length_cons]
            dsimp only at hIH
            omega
          · obtain ⟨hren, y2, rest2, hfs⟩ :=
              processOne_resolved dtToTs fromTs umf false st st1 f rez t hph hres hts hstep
            have hnoTs : noTimestampB dtToTs umf f = false := by
              unfold noTimestampB
              simp [hres, Except.map, hts]
            have hpred : (photoExtensions.contains (fileExt f.name) &&
                noTimestampB dtToTs umf f) = false := by
              rw [hnoTs]
              simp
            simp only [List.filter_cons, hpred, Bool.false_eq_true, if_false]
            rw [hIH, hren]
      · rw [processOne_nonphoto dtToTs fromTs ⟨umf, false, false⟩ st f hph] at hstep
        cases hstep
        have hc : photoExtensions.contains (fileExt f.name) = false := by simpa using hph
        have hpred : (photoExtensions.contains (fileExt f.name) &&
            noTimestampB dtToTs umf f) = false := by
          rw [hc]
          rfl
        simp only [List.filter_cons, hpred, Bool.false_eq_true, if_false]
        exact hIH

/-- C10: with `skip_no_metadata` off, two unresolvable media files of
the same basename are both copied to `Needs_Review/` under that one
name: the earlier copy is really written (after the prefix through the
first file, the path holds the first content), but the run ends with a
single `Needs_Review` entry of that name holding the later file's
content — the later copy silently replaces the earlier one, no
collision counter intervenes (the output tree stays one content per
path) — while `renamed_only` still counts every unresolvable media
file of the walk once, both files included. -/
theorem c10_needs_review_overwrite (dtToTs : PyDateTime → Int)
    (fromTs : Int → Option PyDateTime) (umf : Bool)
    (pre mid post : List FileRec) (f g : FileRec) (r : PState)
    (hphf : fileExt f.name ∈ photoExtensions)
    (hphg : fileExt g.name ∈ photoExtensions)
    (hfu : noTimestampB dtToTs umf f = true)
    (hgu : noTimestampB dtToTs umf g = true)
    (hname : g.name = f.name)
    (hpost : ∀ x ∈ post, reviewWriterB dtToTs umf f.name x = false)
    (hrun : runPipeline dtToTs fromTs ⟨umf, false, false⟩
      (pre ++ f :: mid ++ g :: post) = .ok r) :
    (∃ s1, processAll dtToTs fromTs ⟨umf, false, false⟩ initPState (pre ++ [f]) = .ok s1 ∧
        assocGet s1.fs ("Needs_Review/" ++ f.name) = some f.bytes) ∧
    assocGet r.fs ("Needs_Review/" ++ f.name) = some g.bytes ∧
    (r.fs.map Prod.fst).Nodup ∧
    r.stats.renamed_only =
      ((pre ++ f :: mid ++ g :: post).filter
        (fun x => photoExtensions.contains (fileExt x.name) && noTimestampB dtToTs umf x)).length := by
  unfold runPipeline at hrun
  have hcf : photoExtensions.contains (fileExt f.name) = true := by simpa using hphf
  have hcg : photoExtensions.contains (fileExt g.name) = true := by simpa using hphg
  have hwf : reviewWriterB dtToTs umf f.name f = true := by
    unfold reviewWriterB
    rw [hcf, hfu]
    simp
  have hwg : reviewWriterB dtToTs umf f.name g = true := by
    unfold reviewWriterB
    rw [hcg, hgu, hname]
    simp
  refine ⟨?_, ?_, ?_, ?_⟩
  · have hsplit : pre ++ f :: mid ++ g :: post = (pre ++ [f]) ++ (mid ++ g :: post) := by
      simp
    have hrun2 := hrun
    rw [hsplit, processAll_append] at hrun2
    rcases hpre : processAll dtToTs fromTs ⟨umf, false, false⟩ initPState (pre ++ [f])
        with e | s1 <;> rw [hpre] at hrun2
    · cases hrun2
    · refine ⟨s1, rfl, ?_⟩
      have hinv1 := review_fs_invariant dtToTs fromTs umf f.name (pre ++ [f]) initPState s1 hpre
      have h5 : lastReviewWrite dtToTs umf f.name (pre ++ [f]) = some f := by
        rw [lastReviewWrite_append]
        simp [lastReviewWrite, hwf]
      rw [h5] at hinv1
      simpa using hinv1
  · have hinv := review_fs_invariant dtToTs fromTs umf f.name
      (pre ++ f :: mid ++ g :: post) initPState r hrun
    have hpostnone := lastReviewWrite_none dtToTs umf f.name post hpost
    have h1 : lastReviewWrite dtToTs umf f.name (g :: post) = some g := by
      simp [lastReviewWrite, hpostnone, hwg]
    have h4 : lastReviewWrite dtToTs umf f.name (pre ++ f :: mid ++ g :: post) = some g := by
      rw [lastReviewWrite_append, h1]
    rw [h4] at hinv
    simpa using hinv
  · exact processAll_fs_nodup dtToTs fromTs ⟨umf, false, false⟩
      (pre ++ f :: mid ++ g :: post) initPState r hrun (by simp [initPState])
  · have hcount := review_count_invariant dtToTs fromTs umf
      (pre ++ f :: mid ++ g :: post) initPState r hrun
    simpa [initPState] using hcount

/-- Witness for C10: the two-file run `dup.jpg`(`X1`), `dup.jpg`(`X2`)
ends with the single `Needs_Review/dup.jpg` entry holding `X2` and
`renamed_only = 2`. -/
theorem c10_witness :
    assocGet c10FinalState.fs ("Needs_Review/" ++ (c10File "dup.jpg" "X1").name) =
      some (c10File "dup.jpg" "X2").bytes ∧
    (c10FinalState.fs.map Prod.fst).Nodup ∧
    c10FinalState.stats.renamed_only = 2 := by
  have h := c10_needs_review_overwrite (fun _ => 0) (fun _ => none) false [] [] []
    (c10File "dup.jpg" "X1") (c10File "dup.jpg" "X2") c10FinalState
    (by decide) (by decide) (by decide) (by decide) (by decide) (by simp)
    (by decide)
  refine ⟨h.2.1, h.2.2.1, ?_⟩
  rw [h.2.2.2]
  decide
